import Mathlib

/-!
Verification development for the dependency-mapping program (`mapper.py`).

The program builds a call graph of Python functions: a first pass
(`NodeCreator`) scans each requested source unit and registers one
`FuncNode` per declared callable, following `import` statements one hop
deep; a second pass (`EdgeDetector`) matches call expressions against
the registered nodes and records edges bidirectionally.

This file is a shallow embedding of that code: Python objects become
structures, the shared mutable graph becomes an explicitly threaded
list of nodes (a model of the Python dict whose keys and values are the
node objects themselves, keyed by the identity-triple hash), and raised
exceptions become an explicit `Option String` error component so that
the state mutations that precede a raise are preserved, exactly as they
are on Python objects.
-/

/-- The identity triple of a graph node: declaring-unit filename,
enclosing-class name (empty at module level), callable name.
`FuncNode.__eq__` and `FuncNode.__hash__` derive solely from it. -/
structure NodeId where
  filename : String
  class_name : String
  name : String
deriving DecidableEq, Repr

/-- Embedding of the `FuncNode` class (mapper.py:55-138).  The Python
`_dependencies` and `_dependents` sets hold `FuncNode` objects, but set
membership is decided by `__eq__`/`__hash__`, i.e. by the identity
triple, so they are modelled as duplicate-free lists of `NodeId`.
The `_hidden` attribute is the secondary flag; `_ast_node` is the
back-reference to the declaring syntax-tree node, modelled by the
node's numeric id (`None` becomes `none`). -/
structure FuncNode where
  filename : String
  class_name : String
  name : String
  hidden : Bool
  ast_node : Option Nat
  dependencies : List NodeId
  dependents : List NodeId
deriving DecidableEq, Repr

/-- The identity triple of a node. -/
def FuncNode.ident (n : FuncNode) : NodeId :=
  ⟨n.filename, n.class_name, n.name⟩

/-- `FuncNode.__eq__` (mapper.py:72-78): equal class (automatic in this
embedding, both sides are `FuncNode`) and component-wise equal
(filename, class, name) triples. -/
def eqNode (a b : FuncNode) : Bool :=
  a.filename == b.filename && a.class_name == b.class_name && a.name == b.name

/-- `FuncNode.__hash__` (mapper.py:81-82): the hash of the identity
triple and of nothing else. -/
def hashNode (n : FuncNode) : UInt64 :=
  hash (n.filename, n.class_name, n.name)

/-- Constructor call `FuncNode(filename=.., class_name=.., name=..,
hidden=.., ast_node=..)` (mapper.py:57-67): fresh nodes start with
empty dependency and dependent sets. -/
def mkNode (filename class_name name : String) (hidden : Bool)
    (ast_node : Option Nat) : FuncNode :=
  { filename := filename, class_name := class_name, name := name,
    hidden := hidden, ast_node := ast_node,
    dependencies := [], dependents := [] }

/-- The identity triples present in a graph. -/
def ids (g : List FuncNode) : List NodeId :=
  g.map FuncNode.ident

/-- Dict lookup `graph[node]` by identity: the first (and, in every
graph the program builds, only) entry with the given identity. -/
def getNode (g : List FuncNode) (i : NodeId) : Option FuncNode :=
  g.find? (fun m => decide (m.ident = i))

/-- Python `set.add` on an identity-keyed set of nodes. -/
def insertIdent (l : List NodeId) (i : NodeId) : List NodeId :=
  if i ∈ l then l else l ++ [i]

/-- `ASTParser.add_node` (mapper.py:186-188): insert the node into the
graph dict unless a node with the same identity is already present. -/
def add_node (g : List FuncNode) (n : FuncNode) : List FuncNode :=
  if g.any (fun m => eqNode m n) then g else g ++ [n]

/-- `self.graph[this_node].add_dependency(dependency_node)`
(mapper.py:337): the canonical entry with identity `t` gains `i` in its
dependency set. -/
def add_dependency_at (g : List FuncNode) (t i : NodeId) : List FuncNode :=
  g.map fun m =>
    if m.ident = t then { m with dependencies := insertIdent m.dependencies i } else m

/-- `self.graph[dependency_node].add_dependent(this_node)`
(mapper.py:338): the canonical entry with identity `t` gains `i` in its
dependent set. -/
def add_dependent_at (g : List FuncNode) (t i : NodeId) : List FuncNode :=
  g.map fun m =>
    if m.ident = t then { m with dependents := insertIdent m.dependents i } else m

/-- `EdgeDetector.add_edge` (mapper.py:321-338).  When the callee could
not be resolved, a placeholder node is synthesized: identity
`("System", "Builtins", name)` for a built-in callee, otherwise
`("Unknown", "Unknown", name)`.  Both endpoints are then ensured to be
in the graph, and the edge is recorded on both canonical entries. -/
def add_edge (g : List FuncNode) (is_built_in : Bool) (dependency : String)
    (this_node : FuncNode) (dependency_opt : Option FuncNode) : List FuncNode :=
  let dependency_node :=
    match dependency_opt with
    | some d => d
    | none =>
      if is_built_in then mkNode "System" "Builtins" dependency false none
      else mkNode "Unknown" "Unknown" dependency false none
  let g1 := add_node g this_node
  let g2 := add_node g1 dependency_node
  let g3 := add_dependency_at g2 this_node.ident dependency_node.ident
  add_dependent_at g3 dependency_node.ident this_node.ident

theorem eqNode_iff (a b : FuncNode) :
    eqNode a b = true ↔ a.ident = b.ident := by
  simp [eqNode, FuncNode.ident, NodeId.mk.injEq, and_assoc]

/-- C2: `a == b` holds iff the identity triples agree componentwise,
whatever the other attributes (secondary flag, syntax-tree
back-reference, accumulated edge sets) are; and the hash is computed
from the triple alone, so triple-equal nodes hash alike. -/
theorem c2_identity_eq_hash (a b : FuncNode) :
    (eqNode a b = true ↔
      (a.filename = b.filename ∧ a.class_name = b.class_name ∧ a.name = b.name))
    ∧ (a.filename = b.filename → a.class_name = b.class_name → a.name = b.name →
      hashNode a = hashNode b) := by
  constructor
  · simp [eqNode, and_assoc]
  · intro h1 h2 h3
    simp [hashNode, h1, h2, h3]

/-- Witness for C2: two node instances created with the same triple in
different passes (different secondary flag, back-reference and edge
sets) compare equal and hash equal. -/
theorem c2_identity_eq_hash_witness :
    (eqNode (mkNode "u.py" "" "f" false (some 1))
      { mkNode "u.py" "" "f" true none with dependents := [⟨"a", "b", "c"⟩] } = true)
    ∧ hashNode (mkNode "u.py" "" "f" false (some 1))
      = hashNode { mkNode "u.py" "" "f" true none with dependents := [⟨"a", "b", "c"⟩] } :=
  ⟨(c2_identity_eq_hash _ _).1.mpr ⟨rfl, rfl, rfl⟩,
   (c2_identity_eq_hash _ _).2 rfl rfl rfl⟩

/-! ### The graph invariant: identity-keyed dict, closed symmetric edges (C1) -/

/-- No two entries of the graph share an identity: the graph models a
Python dict whose key equality is `FuncNode.__eq__`. -/
def NodupIds (g : List FuncNode) : Prop := (ids g).Nodup

/-- Every identity mentioned in some edge set belongs to the graph:
`add_edge` inserts both endpoints before recording the edge. -/
def Closed (g : List FuncNode) : Prop :=
  ∀ a ∈ g, (∀ i ∈ a.dependencies, i ∈ ids g) ∧ ∀ i ∈ a.dependents, i ∈ ids g

/-- Edge symmetry: `B ∈ A.dependencies ↔ A ∈ B.dependents`, membership
taken by identity. -/
def EdgeSym (g : List FuncNode) : Prop :=
  ∀ a ∈ g, ∀ b ∈ g, (b.ident ∈ a.dependencies ↔ a.ident ∈ b.dependents)

/-- The conjunction of the three structural graph invariants. -/
def GraphInv (g : List FuncNode) : Prop := NodupIds g ∧ Closed g ∧ EdgeSym g

theorem mem_insertIdent {l : List NodeId} {x y : NodeId} :
    x ∈ insertIdent l y ↔ x ∈ l ∨ x = y := by
  unfold insertIdent
  split
  · next h =>
    constructor
    · exact Or.inl
    · rintro (h1 | rfl)
      · exact h1
      · exact h
  · simp

theorem any_eqNode_iff (g : List FuncNode) (n : FuncNode) :
    (g.any fun m => eqNode m n) = true ↔ n.ident ∈ ids g := by
  simp only [List.any_eq_true, eqNode_iff, ids, List.mem_map]

theorem add_node_mem_ids (g : List FuncNode) (n : FuncNode) (h : n.ident ∈ ids g) :
    add_node g n = g := by
  unfold add_node
  rw [if_pos ((any_eqNode_iff g n).mpr h)]

theorem add_node_not_mem (g : List FuncNode) (n : FuncNode) (h : n.ident ∉ ids g) :
    add_node g n = g ++ [n] := by
  unfold add_node
  rw [if_neg]
  intro hc
  exact h ((any_eqNode_iff g n).mp hc)

theorem ids_append (g h : List FuncNode) : ids (g ++ h) = ids g ++ ids h := by
  simp [ids]

theorem mem_ids_of_mem {g : List FuncNode} {a : FuncNode} (h : a ∈ g) :
    a.ident ∈ ids g :=
  List.mem_map_of_mem _ h

theorem ids_subset_add_node (g : List FuncNode) (n : FuncNode) :
    ids g ⊆ ids (add_node g n) := by
  by_cases h : n.ident ∈ ids g
  · rw [add_node_mem_ids g n h]
    exact fun x hx => hx
  · rw [add_node_not_mem g n h, ids_append]
    exact List.subset_append_left _ _

theorem ident_mem_ids_add_node (g : List FuncNode) (n : FuncNode) :
    n.ident ∈ ids (add_node g n) := by
  by_cases h : n.ident ∈ ids g
  · rw [add_node_mem_ids g n h]; exact h
  · rw [add_node_not_mem g n h, ids_append]
    exact List.mem_append_right _ (by simp [ids])

theorem graphInv_add_node {g : List FuncNode} {n : FuncNode} (hI : GraphInv g)
    (hd : n.dependencies = []) (ht : n.dependents = []) :
    GraphInv (add_node g n) := by
  obtain ⟨hN, hC, hS⟩ := hI
  by_cases h : n.ident ∈ ids g
  · rw [add_node_mem_ids g n h]; exact ⟨hN, hC, hS⟩
  · rw [add_node_not_mem g n h]
    refine ⟨?_, ?_, ?_⟩
    · show (ids (g ++ [n])).Nodup
      rw [ids_append, List.nodup_append]
      refine ⟨hN, List.nodup_singleton _, ?_⟩
      intro x hx hx2
      simp only [ids, List.map_cons, List.map_nil, List.mem_singleton] at hx2
      exact h (hx2 ▸ hx)
    · intro a ha
      rcases List.mem_append.mp ha with ha1 | ha1
      · obtain ⟨h1, h2⟩ := hC a ha1
        exact ⟨fun i hi => (ids_append g [n]) ▸ List.mem_append_left _ (h1 i hi),
               fun i hi => (ids_append g [n]) ▸ List.mem_append_left _ (h2 i hi)⟩
      · have han : a = n := by simpa using ha1
        rw [han, hd, ht]
        exact ⟨fun i hi => absurd hi (List.not_mem_nil i),
               fun i hi => absurd hi (List.not_mem_nil i)⟩
    · intro a ha b hb
      rcases List.mem_append.mp ha with ha1 | ha1 <;>
        rcases List.mem_append.mp hb with hb1 | hb1
      · exact hS a ha1 b hb1
      · have hbn : b = n := by simpa using hb1
        rw [hbn, ht]
        exact iff_of_false (fun hm => h ((hC a ha1).1 _ hm)) (List.not_mem_nil _)
      · have han : a = n := by simpa using ha1
        rw [han, hd]
        exact iff_of_false (List.not_mem_nil _) (fun hm => h ((hC b hb1).2 _ hm))
      · have han : a = n := by simpa using ha1
        have hbn : b = n := by simpa using hb1
        rw [han, hbn, hd, ht]

theorem graphInv_add_node_or {g : List FuncNode} {n : FuncNode} (hI : GraphInv g)
    (h : n ∈ g ∨ (n.dependencies = [] ∧ n.dependents = [])) :
    GraphInv (add_node g n) := by
  cases h with
  | inl h => rw [add_node_mem_ids g n (mem_ids_of_mem h)]; exact hI
  | inr h => exact graphInv_add_node hI h.1 h.2

/-- Recording one edge between identities already present preserves the
invariant: both endpoints gain exactly the matching membership. -/
theorem graphInv_add_both {g : List FuncNode} (hI : GraphInv g) {t i : NodeId}
    (hti : t ∈ ids g) (hii : i ∈ ids g) :
    GraphInv (add_dependent_at (add_dependency_at g t i) i t) := by
  obtain ⟨hN, hC, hS⟩ := hI
  have hmap : add_dependent_at (add_dependency_at g t i) i t =
      g.map (fun m =>
        (fun m' => if m'.ident = i then { m' with dependents := insertIdent m'.dependents t } else m')
        ((fun m' => if m'.ident = t then { m' with dependencies := insertIdent m'.dependencies i } else m') m)) := by
    unfold add_dependent_at add_dependency_at
    rw [List.map_map]
    rfl
  set F := fun m : FuncNode =>
        (fun m' : FuncNode => if m'.ident = i then { m' with dependents := insertIdent m'.dependents t } else m')
        ((fun m' : FuncNode => if m'.ident = t then { m' with dependencies := insertIdent m'.dependencies i } else m') m)
    with hF
  have hident : ∀ m : FuncNode, (F m).ident = m.ident := by
    intro m
    simp only [hF, FuncNode.ident]
    split <;> split <;> simp_all [FuncNode.ident]
  have hdeps : ∀ m : FuncNode, (F m).dependencies =
      if m.ident = t then insertIdent m.dependencies i else m.dependencies := by
    intro m
    simp only [hF]
    split <;> split <;> simp_all [FuncNode.ident]
  have hdepd : ∀ m : FuncNode, (F m).dependents =
      if m.ident = i then insertIdent m.dependents t else m.dependents := by
    intro m
    simp only [hF]
    split <;> split <;> simp_all [FuncNode.ident]
  have hids : ids (g.map F) = ids g := by
    unfold ids
    rw [List.map_map]
    exact List.map_congr_left fun a _ => hident a
  rw [hmap]
  refine ⟨?_, ?_, ?_⟩
  · show (ids (g.map F)).Nodup
    rw [hids]; exact hN
  · intro a' ha'
    obtain ⟨a, ha, rfl⟩ := List.mem_map.mp ha'
    rw [hids]
    constructor
    · intro j hj
      rw [hdeps] at hj
      by_cases hat : a.ident = t
      · rw [if_pos hat] at hj
        rcases mem_insertIdent.mp hj with hj | rfl
        · exact (hC a ha).1 j hj
        · exact hii
      · rw [if_neg hat] at hj
        exact (hC a ha).1 j hj
    · intro j hj
      rw [hdepd] at hj
      by_cases hai : a.ident = i
      · rw [if_pos hai] at hj
        rcases mem_insertIdent.mp hj with hj | rfl
        · exact (hC a ha).2 j hj
        · exact hti
      · rw [if_neg hai] at hj
        exact (hC a ha).2 j hj
  · intro a' ha' b' hb'
    obtain ⟨a, ha, rfl⟩ := List.mem_map.mp ha'
    obtain ⟨b, hb, rfl⟩ := List.mem_map.mp hb'
    rw [hident, hident, hdeps, hdepd]
    by_cases hat : a.ident = t <;> by_cases hbi : b.ident = i
    · rw [if_pos hat, if_pos hbi]
      rw [hat, hbi]
      exact iff_of_true (mem_insertIdent.mpr (Or.inr rfl))
        (mem_insertIdent.mpr (Or.inr rfl))
    · rw [if_pos hat, if_neg hbi]
      constructor
      · intro hm
        rcases mem_insertIdent.mp hm with hm | hm
        · exact (hS a ha b hb).mp hm
        · exact absurd hm hbi
      · intro hm
        exact mem_insertIdent.mpr (Or.inl ((hS a ha b hb).mpr hm))
    · rw [if_neg hat, if_pos hbi]
      constructor
      · intro hm
        exact mem_insertIdent.mpr (Or.inl ((hS a ha b hb).mp hm))
      · intro hm
        rcases mem_insertIdent.mp hm with hm | hm
        · exact (hS a ha b hb).mpr hm
        · exact absurd hm hat
    · rw [if_neg hat, if_neg hbi]
      exact hS a ha b hb

theorem graphInv_add_edge {g : List FuncNode} (hI : GraphInv g) (b : Bool)
    (dep : String) {this_node : FuncNode} {dep_opt : Option FuncNode}
    (h1 : this_node ∈ g ∨ (this_node.dependencies = [] ∧ this_node.dependents = []))
    (h2 : dep_opt = none ∨ ∃ d ∈ g, dep_opt = some d) :
    GraphInv (add_edge g b dep this_node dep_opt) := by
  have key : ∀ dn : FuncNode,
      (dn ∈ g ∨ (dn.dependencies = [] ∧ dn.dependents = [])) →
      GraphInv (add_dependent_at
        (add_dependency_at (add_node (add_node g this_node) dn) this_node.ident dn.ident)
        dn.ident this_node.ident) := by
    intro dn hdn
    have hI1 : GraphInv (add_node g this_node) := graphInv_add_node_or hI h1
    have hdn1 : dn ∈ add_node g this_node ∨ (dn.dependencies = [] ∧ dn.dependents = []) := by
      rcases hdn with hdn | hdn
      · left
        by_cases hmem : this_node.ident ∈ ids g
        · rw [add_node_mem_ids g this_node hmem]; exact hdn
        · rw [add_node_not_mem g this_node hmem]; exact List.mem_append_left _ hdn
      · right; exact hdn
    have hI2 : GraphInv (add_node (add_node g this_node) dn) :=
      graphInv_add_node_or hI1 hdn1
    have ht2 : this_node.ident ∈ ids (add_node (add_node g this_node) dn) :=
      ids_subset_add_node _ dn (ident_mem_ids_add_node g this_node)
    have hd2 : dn.ident ∈ ids (add_node (add_node g this_node) dn) :=
      ident_mem_ids_add_node _ dn
    exact graphInv_add_both hI2 ht2 hd2
  rcases h2 with rfl | ⟨d, hd, rfl⟩
  · show GraphInv (add_edge g b dep this_node none)
    unfold add_edge
    rcases b with _ | _
    · exact key (mkNode "Unknown" "Unknown" dep false none) (Or.inr ⟨rfl, rfl⟩)
    · exact key (mkNode "System" "Builtins" dep false none) (Or.inr ⟨rfl, rfl⟩)
  · show GraphInv (add_edge g b dep this_node (some d))
    unfold add_edge
    exact key d (Or.inl hd)

/-- The graph states reachable by the program's two passes: starting
from the empty graph, the declaration scan inserts fresh (empty-edged)
nodes through `add_node`, and the edge-resolution pass records edges
through `add_edge`, whose caller node is either an entry of the graph
or a freshly constructed node and whose dependency node is either
`None` or an entry found while scanning the graph
(mapper.py:284-316). -/
inductive Reachable : List FuncNode → Prop where
  | empty : Reachable []
  | scan_node (g : List FuncNode) (n : FuncNode) : Reachable g →
      n.dependencies = [] → n.dependents = [] → Reachable (add_node g n)
  | record_edge (g : List FuncNode) (b : Bool) (dep : String)
      (this_node : FuncNode) (dep_opt : Option FuncNode) : Reachable g →
      (this_node ∈ g ∨ (this_node.dependencies = [] ∧ this_node.dependents = [])) →
      (dep_opt = none ∨ ∃ d ∈ g, dep_opt = some d) →
      Reachable (add_edge g b dep this_node dep_opt)

theorem reachable_graphInv {g : List FuncNode} (hg : Reachable g) : GraphInv g := by
  induction hg with
  | empty =>
    refine ⟨List.nodup_nil, ?_, ?_⟩
    · intro a ha; cases ha
    · intro a ha; cases ha
  | scan_node g n hg hd ht ih => exact graphInv_add_node ih hd ht
  | record_edge g b dep tn dopt hg h1 h2 ih => exact graphInv_add_edge ih b dep h1 h2

/-- C1: in every graph state reachable by the declaration-scan and
edge-resolution passes, for all nodes `A` and `B` of the canonical node
set, `B ∈ A.dependencies ↔ A ∈ B.dependents` (membership by identity
equality): every edge recorded by `add_edge` is stored symmetrically on
both endpoints, and no operation creates a one-sided edge. -/
theorem c1_edge_symmetry (g : List FuncNode) (hg : Reachable g) :
    ∀ a ∈ g, ∀ b ∈ g, (b.ident ∈ a.dependencies ↔ a.ident ∈ b.dependents) :=
  (reachable_graphInv hg).2.2

/-- A concrete reachable graph state for the C1 witness: one edge
recorded from a fresh caller node to an unresolved callee. -/
def c1WitnessGraph : List FuncNode :=
  add_edge [] false "g" (mkNode "u.py" "" "f" false none) none

/-- The caller node as it appears inside `c1WitnessGraph`. -/
def c1WitnessA : FuncNode :=
  { filename := "u.py", class_name := "", name := "f", hidden := false,
    ast_node := none, dependencies := [⟨"Unknown", "Unknown", "g"⟩], dependents := [] }

/-- The unresolved-callee placeholder as it appears inside
`c1WitnessGraph`. -/
def c1WitnessB : FuncNode :=
  { filename := "Unknown", class_name := "Unknown", name := "g", hidden := false,
    ast_node := none, dependencies := [], dependents := [⟨"u.py", "", "f"⟩] }

/-- Witness for C1 at a concrete reachable graph. -/
theorem c1_edge_symmetry_witness :
    c1WitnessB.ident ∈ c1WitnessA.dependencies ↔ c1WitnessA.ident ∈ c1WitnessB.dependents :=
  c1_edge_symmetry c1WitnessGraph
    (Reachable.record_edge [] false "g" (mkNode "u.py" "" "f" false none) none
      Reachable.empty (Or.inr ⟨rfl, rfl⟩) (Or.inl rfl))
    c1WitnessA (by decide) c1WitnessB (by decide)

/-! ### Dict merge and idempotence (C10) -/

theorem getNode_ident {g : List FuncNode} {i : NodeId} {v : FuncNode}
    (h : getNode g i = some v) : v.ident = i := by
  unfold getNode at h
  have h2 := @List.find?_some FuncNode (fun m : FuncNode => decide (m.ident = i)) v g h
  exact of_decide_eq_true h2

theorem getNode_mem_nodup {g : List FuncNode} (hN : (ids g).Nodup) {x : FuncNode}
    (hx : x ∈ g) : getNode g x.ident = some x := by
  induction g with
  | nil => cases hx
  | cons y ys ih =>
    have hN' : (ids ys).Nodup ∧ y.ident ∉ ids ys := by
      have : ids (y :: ys) = y.ident :: ids ys := by simp [ids]
      rw [this] at hN
      exact ⟨(List.nodup_cons.mp hN).2, (List.nodup_cons.mp hN).1⟩
    by_cases hyx : y.ident = x.ident
    · have hxy : x = y := by
        rcases List.mem_cons.mp hx with h1 | h1
        · exact h1
        · exact absurd (hyx ▸ mem_ids_of_mem h1) hN'.2
      rw [hxy, getNode, List.find?_cons_of_pos _ (by simp)]
    · have hx2 : x ∈ ys := by
        rcases List.mem_cons.mp hx with h1 | h1
        · exact absurd (by rw [h1]) hyx
        · exact h1
      rw [getNode, List.find?_cons_of_neg _ (by simpa using hyx)]
      exact ih hN'.1 hx2

/-- The value taken by one entry under Python's `{**a, **b}`: `b`'s
entry for the identity when `b` holds it, otherwise the original. -/
def mergeVal (b : List FuncNode) (m : FuncNode) : FuncNode :=
  match getNode b m.ident with
  | some v => v
  | none => m

/-- `{**search.graph, **creator.get_graph()}` (mapper.py:351): Python
dict merge -- the entries of `a` in their order, each replaced by `b`'s
entry when `b` also holds the identity, followed by the entries of `b`
whose identity `a` does not hold, in `b`'s order. -/
def mergeDicts (a b : List FuncNode) : List FuncNode :=
  (a.map (mergeVal b)) ++ b.filter fun m => !(a.any fun x => eqNode x m)

theorem mergeVal_ident (b : List FuncNode) (m : FuncNode) :
    (mergeVal b m).ident = m.ident := by
  unfold mergeVal
  cases h : getNode b m.ident with
  | none => rfl
  | some v => exact getNode_ident h

theorem mergeVal_idem (b : List FuncNode) (m : FuncNode) :
    mergeVal b (mergeVal b m) = mergeVal b m := by
  unfold mergeVal
  cases h : getNode b m.ident with
  | none => simp [h]
  | some v =>
    have hv : v.ident = m.ident := getNode_ident h
    simp [hv, h]

theorem mem_ids_mergeDicts_of_b {a b : List FuncNode} {m : FuncNode} (hm : m ∈ b) :
    m.ident ∈ ids (mergeDicts a b) := by
  unfold mergeDicts
  rw [ids_append]
  by_cases h : m.ident ∈ ids a
  · refine List.mem_append_left _ ?_
    have : ids (a.map (mergeVal b)) = ids a := by
      unfold ids
      rw [List.map_map]
      exact List.map_congr_left fun x _ => mergeVal_ident b x
    rw [this]
    exact h
  · refine List.mem_append_right _ ?_
    have hfalse : (a.any fun x => eqNode x m) = false := by
      cases hval : (a.any fun x => eqNode x m) with
      | false => rfl
      | true => exact absurd ((any_eqNode_iff a m).mp hval) h
    exact mem_ids_of_mem (List.mem_filter.mpr ⟨hm, by rw [hfalse]; rfl⟩)

/-- C10: re-adding a node whose identity is already present is a no-op
retaining the existing canonical entry with its accumulated edge sets,
`add_node` is idempotent, and folding the same per-file graph into the
global graph twice (the dict merge of mapper.py:351) yields the same
node and edge sets as folding it once. -/
theorem c10_idempotent_merge (g p : List FuncNode) (n : FuncNode) :
    (n.ident ∈ ids g → add_node g n = g)
    ∧ add_node (add_node g n) n = add_node g n
    ∧ ((ids p).Nodup → mergeDicts (mergeDicts g p) p = mergeDicts g p) := by
  refine ⟨add_node_mem_ids g n, add_node_mem_ids _ n (ident_mem_ids_add_node g n), ?_⟩
  intro hN
  have hfilter : (p.filter fun m => !((mergeDicts g p).any fun x => eqNode x m)) = [] := by
    rw [List.filter_eq_nil_iff]
    intro m hm
    have hmem : m.ident ∈ ids (mergeDicts g p) := mem_ids_mergeDicts_of_b hm
    intro hcond
    rw [Bool.not_eq_true'] at hcond
    exact absurd ((any_eqNode_iff _ m).mpr hmem) (by rw [hcond]; exact Bool.false_ne_true)
  have hmapfix : ∀ x ∈ mergeDicts g p, mergeVal p x = x := by
    intro x hx
    rcases List.mem_append.mp hx with hx1 | hx1
    · obtain ⟨m, _, rfl⟩ := List.mem_map.mp hx1
      exact mergeVal_idem p m
    · have hxp : x ∈ p := (List.mem_filter.mp hx1).1
      unfold mergeVal
      rw [getNode_mem_nodup hN hxp]
  show ((mergeDicts g p).map (mergeVal p))
      ++ (p.filter fun m => !((mergeDicts g p).any fun x => eqNode x m)) = mergeDicts g p
  rw [hfilter, List.append_nil]
  rw [List.map_congr_left hmapfix]
  exact List.map_id _

/-- Witness for C10 at concrete graphs: a re-added node with a
different secondary flag is dropped, and a second merge of the same
partial graph changes nothing. -/
theorem c10_idempotent_merge_witness :
    (add_node [mkNode "u.py" "" "f" false (some 1)] (mkNode "u.py" "" "f" true none)
      = [mkNode "u.py" "" "f" false (some 1)])
    ∧ add_node (add_node [mkNode "u.py" "" "f" false (some 1)] (mkNode "u.py" "" "f" true none))
        (mkNode "u.py" "" "f" true none)
      = add_node [mkNode "u.py" "" "f" false (some 1)] (mkNode "u.py" "" "f" true none)
    ∧ mergeDicts (mergeDicts [mkNode "u.py" "" "f" false (some 1)] [mkNode "v.py" "" "g" true none])
        [mkNode "v.py" "" "g" true none]
      = mergeDicts [mkNode "u.py" "" "f" false (some 1)] [mkNode "v.py" "" "g" true none] :=
  ⟨(c10_idempotent_merge [mkNode "u.py" "" "f" false (some 1)] [] (mkNode "u.py" "" "f" true none)).1
      (by decide),
   (c10_idempotent_merge [mkNode "u.py" "" "f" false (some 1)] [] (mkNode "u.py" "" "f" true none)).2.1,
   (c10_idempotent_merge [mkNode "u.py" "" "f" false (some 1)] [mkNode "v.py" "" "g" true none]
      (mkNode "u.py" "" "f" true none)).2.2 (by decide)⟩

/-! ### Rendering: sort key, hidden nodes (C7) -/

/-- Python string comparison, `<=` on lists of code points
(lexicographic, shorter prefix first). -/
def charListLe : List Char → List Char → Bool
  | [], _ => true
  | _ :: _, [] => false
  | a :: as, b :: bs =>
    if a.toNat < b.toNat then true
    else if b.toNat < a.toNat then false
    else charListLe as bs

/-- `s1 <= s2` on Python strings, as used by `sorted`. -/
def strLe (a b : String) : Bool := charListLe a.data b.data

theorem charListLe_total : ∀ as bs, charListLe as bs = true ∨ charListLe bs as = true
  | [], _ => Or.inl rfl
  | _ :: _, [] => Or.inr rfl
  | a :: as, b :: bs => by
    unfold charListLe
    rcases Nat.lt_trichotomy a.toNat b.toNat with h | h | h
    · left; rw [if_pos h]
    · rcases charListLe_total as bs with h' | h'
      · left; rw [if_neg (by omega), if_neg (by omega)]; exact h'
      · right; rw [if_neg (by omega), if_neg (by omega)]; exact h'
    · right; rw [if_pos h]

theorem charListLe_trans : ∀ as bs cs, charListLe as bs = true →
    charListLe bs cs = true → charListLe as cs = true
  | [], _, _, _, _ => rfl
  | _ :: _, [], _, h1, _ => by simp [charListLe] at h1
  | _ :: _, _ :: _, [], _, h2 => by simp [charListLe] at h2
  | a :: as, b :: bs, c :: cs, h1, h2 => by
    unfold charListLe at h1 h2 ⊢
    rcases Nat.lt_trichotomy a.toNat b.toNat with h | h | h
    · rcases Nat.lt_trichotomy b.toNat c.toNat with h' | h' | h'
      · rw [if_pos (by omega)]
      · rw [if_pos (by omega)]
      · rw [if_neg (by omega), if_pos (by omega)] at h2
        exact absurd h2 (by simp)
    · rw [if_neg (by omega), if_neg (by omega)] at h1
      rcases Nat.lt_trichotomy b.toNat c.toNat with h' | h' | h'
      · rw [if_pos (by omega)]
      · rw [if_neg (by omega), if_neg (by omega)] at h2
        rw [if_neg (by omega), if_neg (by omega)]
        exact charListLe_trans as bs cs h1 h2
      · rw [if_neg (by omega), if_pos (by omega)] at h2
        exact absurd h2 (by simp)
    · rw [if_neg (by omega), if_pos (by omega)] at h1
      exact absurd h1 (by simp)

theorem strLe_total (a b : String) : strLe a b = true ∨ strLe b a = true :=
  charListLe_total a.data b.data

theorem strLe_trans {a b c : String} (h1 : strLe a b = true) (h2 : strLe b c = true) :
    strLe a c = true :=
  charListLe_trans a.data b.data c.data h1 h2

/-- One step of an insertion sort with a boolean comparison. -/
def ordInsert (le : α → α → Bool) (x : α) : List α → List α
  | [] => [x]
  | y :: ys => if le x y then x :: y :: ys else y :: ordInsert le x ys

/-- Model of Python's `sorted(iterable, key=...)`: a comparison sort;
the theorems use only its sortedness and its membership. -/
def sortByRel (le : α → α → Bool) : List α → List α
  | [] => []
  | x :: xs => ordInsert le x (sortByRel le xs)

theorem mem_ordInsert (le : α → α → Bool) (y : α) :
    ∀ l : List α, ∀ x, x ∈ ordInsert le y l ↔ x = y ∨ x ∈ l
  | [], x => by simp [ordInsert]
  | z :: zs, x => by
    unfold ordInsert
    by_cases h : le y z = true
    · rw [if_pos h]
      simp
    · rw [if_neg h]
      simp only [List.mem_cons, mem_ordInsert le y zs x]
      tauto

theorem mem_sortByRel (le : α → α → Bool) :
    ∀ l : List α, ∀ x, x ∈ sortByRel le l ↔ x ∈ l
  | [], x => by simp [sortByRel]
  | y :: ys, x => by
    unfold sortByRel
    rw [mem_ordInsert le y (sortByRel le ys) x]
    simp only [List.mem_cons, mem_sortByRel le ys x]

theorem pairwise_ordInsert (le : α → α → Bool)
    (htot : ∀ a b, le a b = true ∨ le b a = true)
    (htrans : ∀ a b c, le a b = true → le b c = true → le a c = true) (x : α) :
    ∀ l : List α, List.Pairwise (fun a b => le a b = true) l →
      List.Pairwise (fun a b => le a b = true) (ordInsert le x l)
  | [], _ => List.pairwise_singleton _ _
  | y :: ys, hp => by
    unfold ordInsert
    by_cases hxy : le x y = true
    · rw [if_pos hxy]
      refine List.Pairwise.cons ?_ hp
      intro z hz
      rcases List.mem_cons.mp hz with rfl | hz'
      · exact hxy
      · exact htrans x y z hxy (List.rel_of_pairwise_cons hp hz')
    · rw [if_neg hxy]
      have hyx : le y x = true := (htot x y).resolve_left hxy
      have hp' := List.pairwise_cons.mp hp
      refine List.Pairwise.cons ?_ (pairwise_ordInsert le htot htrans x ys hp'.2)
      intro z hz
      rcases (mem_ordInsert le x ys z).mp hz with rfl | hz'
      · exact hyx
      · exact hp'.1 z hz'

theorem pairwise_sortByRel (le : α → α → Bool)
    (htot : ∀ a b, le a b = true ∨ le b a = true)
    (htrans : ∀ a b c, le a b = true → le b c = true → le a c = true) :
    ∀ l : List α, List.Pairwise (fun a b => le a b = true) (sortByRel le l)
  | [] => List.Pairwise.nil
  | y :: ys => by
    unfold sortByRel
    exact pairwise_ordInsert le htot htrans y _ (pairwise_sortByRel le htot htrans ys)

/-- `FuncNode.get_string` (mapper.py:84-85): the sort key is the plain
concatenation of filename, class name and name. -/
def get_string (n : FuncNode) : String := n.filename ++ n.class_name ++ n.name

/-- `get_string` of a stored edge object depends only on its identity
triple. -/
def identString (i : NodeId) : String := i.filename ++ i.class_name ++ i.name

/-- `FuncNode.is_hidden` (mapper.py:103-107): the secondary flag is set
and both the dependency and the dependent set are empty, decided at
query time from the current edge sets. -/
def is_hidden (n : FuncNode) : Bool :=
  n.hidden && decide (n.dependencies.length = 0) && decide (n.dependents.length = 0)

/-- `FuncNode.get_edges` (mapper.py:118-122): the dependency set when
`inverse` is requested, the dependent set otherwise. -/
def get_edges (n : FuncNode) (inverse : Bool) : List NodeId :=
  if inverse then n.dependencies else n.dependents

/-- The edge list as ordered inside `get_edges_str` (mapper.py:125-129):
the directional edge set sorted by `get_string` of the stored node. -/
def sortedEdges (n : FuncNode) (inverse : Bool) : List NodeId :=
  sortByRel (fun i j => strLe (identString i) (identString j)) (get_edges n inverse)

/-- The data lines printed by `output_text` (mapper.py:424-428): the
graph sorted by `get_string`, nodes for which `is_hidden()` holds
skipped, each remaining node paired with its directional edge set
sorted by the same key; the fixed-width text decoration around each
pair is elided. -/
def output_text (g : List FuncNode) (inverse : Bool) : List (FuncNode × List NodeId) :=
  ((sortByRel (fun a b => strLe (get_string a) (get_string b)) g).filter
    fun n => !(is_hidden n)).map
    fun n => (n, sortedEdges n inverse)

/-- Modelled from the spec: ordering by the `(unit, scope, name)` key,
read as the lexicographic order on the component triple.  Used only to
compare the spec's claimed sort order with the program's concatenated
string key. -/
def tripleLeNode (a b : FuncNode) : Bool :=
  if a.filename == b.filename then
    (if a.class_name == b.class_name then strLe a.name b.name
     else strLe a.class_name b.class_name)
  else strLe a.filename b.filename

/-- Modelled from the spec: the triple order on stored edge
identities. -/
def tripleLeId (i j : NodeId) : Bool :=
  if i.filename == j.filename then
    (if i.class_name == j.class_name then strLe i.name j.name
     else strLe i.class_name j.class_name)
  else strLe i.filename j.filename

/-- Modelled from the spec: `render` with the node list and each edge
set sorted by the `(unit, scope, name)` triple. -/
def renderSpec (g : List FuncNode) (inverse : Bool) : List (FuncNode × List NodeId) :=
  ((sortByRel tripleLeNode g).filter fun n => !(is_hidden n)).map
    fun n => (n, sortByRel tripleLeId (get_edges n inverse))

/-- Counterexample for C7 as stated: the program sorts by the
concatenated string `filename ++ class ++ name`, not by the
`(unit, scope, name)` triple; for the nodes `("a","bd","x")` and
`("ab","c","x")` the two orders disagree, so the rendered list differs
from the spec-ordered one. -/
theorem c7_sort_key_counterexample :
    output_text [mkNode "a" "bd" "x" false none, mkNode "ab" "c" "x" false none] false
    ≠ renderSpec [mkNode "a" "bd" "x" false none, mkNode "ab" "c" "x" false none] false := by
  decide

theorem nodeKey_total (a b : FuncNode) :
    strLe (get_string a) (get_string b) = true ∨ strLe (get_string b) (get_string a) = true :=
  strLe_total _ _

theorem nodeKey_trans (a b c : FuncNode) (h1 : strLe (get_string a) (get_string b) = true)
    (h2 : strLe (get_string b) (get_string c) = true) :
    strLe (get_string a) (get_string c) = true :=
  strLe_trans h1 h2

/-- C7 as amended: the rendered list holds exactly the nodes whose
`is_hidden()` is false -- a node is hidden iff its secondary flag is
set and both edge sets are empty, so a secondary node reappears as soon
as an edge touches it -- and both the node list and each node's
directional edge list are sorted by the concatenated
`filename ++ class ++ name` string key (not by the component triple). -/
theorem c7_render_characterization (g : List FuncNode) (inverse : Bool) :
    (∀ n : FuncNode, ∀ es : List NodeId,
      ((n, es) ∈ output_text g inverse ↔
        (n ∈ g ∧ is_hidden n = false ∧ es = sortedEdges n inverse)))
    ∧ List.Pairwise (fun p q : FuncNode × List NodeId =>
        strLe (get_string p.1) (get_string q.1) = true) (output_text g inverse)
    ∧ (∀ p ∈ output_text g inverse,
        List.Pairwise (fun i j => strLe (identString i) (identString j) = true) p.2)
    ∧ (∀ n ∈ g, n.hidden = true → n.dependencies ≠ [] →
        ∃ es, (n, es) ∈ output_text g inverse) := by
  have hmem : ∀ n : FuncNode, ∀ es : List NodeId,
      ((n, es) ∈ output_text g inverse ↔
        (n ∈ g ∧ is_hidden n = false ∧ es = sortedEdges n inverse)) := by
    intro n es
    unfold output_text
    rw [List.mem_map]
    constructor
    · rintro ⟨m, hm, heq⟩
      obtain ⟨hm1, hm2⟩ := List.mem_filter.mp hm
      have h1 : m = n := congrArg Prod.fst heq
      subst h1
      refine ⟨(mem_sortByRel _ g m).mp hm1, ?_, (congrArg Prod.snd heq).symm⟩
      cases hh : is_hidden m
      · rfl
      · rw [hh] at hm2; exact absurd hm2 (by simp)
    · rintro ⟨h1, h2, rfl⟩
      exact ⟨n, List.mem_filter.mpr ⟨(mem_sortByRel _ g n).mpr h1, by rw [h2]; rfl⟩, rfl⟩
  refine ⟨hmem, ?_, ?_, ?_⟩
  · unfold output_text
    rw [List.pairwise_map]
    refine List.Pairwise.filter _ ?_
    exact pairwise_sortByRel _ nodeKey_total nodeKey_trans g
  · intro p hp
    obtain ⟨m, _, heq⟩ := List.mem_map.mp hp
    have h2 : p.2 = sortedEdges m inverse := (congrArg Prod.snd heq).symm
    rw [h2]
    unfold sortedEdges
    exact pairwise_sortByRel (fun i j => strLe (identString i) (identString j))
      (fun i j => strLe_total (identString i) (identString j))
      (fun i j k hx hy => strLe_trans hx hy) (get_edges m inverse)
  · intro n hn hsec hdep
    refine ⟨sortedEdges n inverse, (hmem n _).mpr ⟨hn, ?_, rfl⟩⟩
    unfold is_hidden
    rw [hsec]
    cases hd : n.dependencies with
    | nil => exact absurd hd hdep
    | cons x xs => simp [hd]

/-- Witness for C7: a secondary node with one recorded dependency is
not hidden and appears in the rendered output. -/
theorem c7_render_characterization_witness :
    ∃ es, ({ mkNode "u.py" "" "f" true none with dependencies := [⟨"v.py", "", "g"⟩] },
      es) ∈ output_text
        [{ mkNode "u.py" "" "f" true none with dependencies := [⟨"v.py", "", "g"⟩] }] false :=
  (c7_render_characterization
      [{ mkNode "u.py" "" "f" true none with dependencies := [⟨"v.py", "", "g"⟩] }] false).2.2.2
    { mkNode "u.py" "" "f" true none with dependencies := [⟨"v.py", "", "g"⟩] }
    (by decide) rfl (by decide)

/-! ### The edge resolver: `EdgeDetector.visit_Call` (C5, C6) -/

/-- `FuncNode.is_identifier` (mapper.py:94-98), with the source's
duplicated filename test kept: true when the identifier equals the
node's filename or its class name. -/
def is_identifier (n : FuncNode) (identifier : String) : Bool :=
  if n.filename == identifier || n.class_name == identifier || n.filename == identifier
  then true else false

/-- The candidate test of the search loop (mapper.py:286): name equals
the callee, or the node is a constructor of a class named like the
callee. -/
def matchesCall (dependency : String) (n : FuncNode) : Bool :=
  n.name == dependency || (n.name == "__init__" && n.class_name == dependency)

/-- One iteration of the candidate-selection loop (mapper.py:285-301):
the first candidate is kept; a later candidate replaces the current one
exactly when the later one passes `is_identifier(home)` and the current
one does not; no diagnostic is produced (the ambiguity print at
mapper.py:297-298 is commented out). -/
def depStep (dependency home : String) (acc : Option FuncNode) (n : FuncNode) :
    Option FuncNode :=
  if matchesCall dependency n then
    match acc with
    | some d => if is_identifier n home && !(is_identifier d home) then some n else some d
    | none => some n
  else acc

/-- The `node.func` shapes `visit_Call` distinguishes
(mapper.py:261-274): an attribute access with a statically named or
unnameable receiver, a plain name, or anything else (which only prints
"big error" and recurses). -/
inductive CallFunc where
  | attr (valueId : Option String) (attrName : String)
  | nameF (funcId : String)
  | unnamed
deriving DecidableEq, Repr

/-- State of an `EdgeDetector` (mapper.py:142-167, 253): the shared
graph, the scope slots, the unit name, and the built-ins flag; `log`
collects the diagnostics actually printed. -/
structure EDState where
  graph : List FuncNode
  current_class : String
  current_function : String
  current_filename : String
  allow_built_ins : Bool
  log : List String
deriving Repr

/-- Callee name and qualifying context (mapper.py:259-274): for an
attribute call the callee is the attribute and the context is the
receiver's name, falling back to the enclosing class when the receiver
cannot be named; for a plain-name call the context is the current
unit's filename. -/
def callNameHome (st : EDState) : CallFunc → Option (String × String)
  | CallFunc.attr v a => some (a, v.getD st.current_class)
  | CallFunc.nameF i => some (i, st.current_filename)
  | CallFunc.unnamed => none

/-- The caller-node resolution inside the search loop (mapper.py:303-304):
the last graph entry whose stored syntax-tree back-reference is this
very call expression. -/
def findThisNode (g : List FuncNode) (callId : Nat) : Option FuncNode :=
  g.foldl (fun acc n => if n.ast_node == some callId then some n else acc) none

/-- `EdgeDetector.visit_Call` (mapper.py:256-318) for one call
expression, given the names of the host interpreter's built-in
namespace (`dir(__builtins__)`).  Skips edge creation for built-ins
unless the flag is set; otherwise selects the callee node by the search
loop, resolves the caller node by back-reference or synthesizes it from
the current scope (naming module-level code `__main__`, which also
updates the visitor's `current_function` slot), and records the edge. -/
def visit_Call (builtins : List String) (st : EDState) (func : CallFunc)
    (callId : Nat) : EDState :=
  match callNameHome st func with
  | none => { st with log := st.log ++ ["big error"] }
  | some (dependency, home) =>
    let is_built_in := builtins.contains dependency
    if is_built_in = false ∨ st.allow_built_ins = true then
      let dependency_node := st.graph.foldl (depStep dependency home) none
      match findThisNode st.graph callId with
      | some t =>
        { st with graph := add_edge st.graph is_built_in dependency t dependency_node }
      | none =>
        let cf := if st.current_function = "" then "__main__" else st.current_function
        let t := mkNode st.current_filename st.current_class cf false (some callId)
        { st with current_function := cf,
                  graph := add_edge st.graph is_built_in dependency t dependency_node }
    else st

/-- The dependency-node resolution at the head of `add_edge`
(mapper.py:322-330), named so the edge lemmas can speak about it. -/
def resolveDepNode (is_built_in : Bool) (dependency : String) :
    Option FuncNode → FuncNode
  | some d => d
  | none =>
    if is_built_in then mkNode "System" "Builtins" dependency false none
    else mkNode "Unknown" "Unknown" dependency false none

/-- The caller node `visit_Call` ends up using (mapper.py:303-314):
the entry whose back-reference is this call expression, or a fresh node
named from the current scope, with module-level code called
`__main__`. -/
def resolveThisNode (st : EDState) (callId : Nat) : FuncNode :=
  match findThisNode st.graph callId with
  | some t => t
  | none => mkNode st.current_filename st.current_class
      (if st.current_function = "" then "__main__" else st.current_function)
      false (some callId)

/-- The number of graph entries with the given identity. -/
def countIdent (g : List FuncNode) (i : NodeId) : Nat :=
  (g.filter fun m => decide (m.ident = i)).length

/-- The dependency set of the entry with identity `i` (empty when the
identity is absent). -/
def depsOf (g : List FuncNode) (i : NodeId) : List NodeId :=
  ((getNode g i).map FuncNode.dependencies).getD []

/-- The dependent set of the entry with identity `i` (empty when the
identity is absent). -/
def dependentsOf (g : List FuncNode) (i : NodeId) : List NodeId :=
  ((getNode g i).map FuncNode.dependents).getD []

theorem add_edge_eq (g : List FuncNode) (b : Bool) (dep : String)
    (t : FuncNode) (dn : Option FuncNode) :
    add_edge g b dep t dn =
      add_dependent_at
        (add_dependency_at (add_node (add_node g t) (resolveDepNode b dep dn))
          t.ident (resolveDepNode b dep dn).ident)
        (resolveDepNode b dep dn).ident t.ident := by
  cases dn <;> rfl


theorem getNode_cons (x : FuncNode) (xs : List FuncNode) (j : NodeId) :
    getNode (x :: xs) j = if x.ident = j then some x else getNode xs j := by
  by_cases h : x.ident = j
  · rw [getNode, List.find?_cons_of_pos _ (by simpa using h), if_pos h]
  · rw [getNode, List.find?_cons_of_neg _ (by simpa using h), if_neg h]
    rfl

theorem getNode_append_single (g : List FuncNode) (n : FuncNode) (i : NodeId) :
    getNode (g ++ [n]) i =
      match getNode g i with
      | some v => some v
      | none => if n.ident = i then some n else none := by
  induction g with
  | nil =>
    show getNode [n] i = _
    rw [getNode_cons]
    rfl
  | cons x xs ih =>
    show getNode (x :: (xs ++ [n])) i = _
    rw [getNode_cons, getNode_cons]
    by_cases h : x.ident = i
    · rw [if_pos h, if_pos h]
    · rw [if_neg h, if_neg h]
      exact ih

theorem getNode_add_node (g : List FuncNode) (n : FuncNode) (i : NodeId) :
    getNode (add_node g n) i =
      match getNode g i with
      | some v => some v
      | none => if n.ident = i ∧ n.ident ∉ ids g then some n else none := by
  by_cases hmem : n.ident ∈ ids g
  · rw [add_node_mem_ids g n hmem]
    cases hv : getNode g i with
    | some v => rfl
    | none => rw [if_neg (fun hc => hc.2 hmem)]
  · rw [add_node_not_mem g n hmem, getNode_append_single]
    cases hv : getNode g i with
    | some v => rfl
    | none =>
      by_cases h : n.ident = i
      · rw [if_pos h, if_pos ⟨h, hmem⟩]
      · rw [if_neg h, if_neg (fun hc => h hc.1)]

/-- The shape shared by the two edge-recording mutations: update the
entries with identity `t` by `f`. -/
def updAt (t : NodeId) (f : FuncNode → FuncNode) (g : List FuncNode) : List FuncNode :=
  g.map fun m => if m.ident = t then f m else m

theorem add_dependency_at_eq (g : List FuncNode) (t i : NodeId) :
    add_dependency_at g t i =
      updAt t (fun m => { m with dependencies := insertIdent m.dependencies i }) g := rfl

theorem add_dependent_at_eq (g : List FuncNode) (t i : NodeId) :
    add_dependent_at g t i =
      updAt t (fun m => { m with dependents := insertIdent m.dependents i }) g := rfl

theorem getNode_updAt (f : FuncNode → FuncNode) (hf : ∀ m, (f m).ident = m.ident) :
    ∀ (g : List FuncNode) (t j : NodeId),
      getNode (updAt t f g) j = if j = t then (getNode g t).map f else getNode g j
  | [], t, j => by
    by_cases h : j = t <;> simp [updAt, getNode, h]
  | x :: xs, t, j => by
    have hcons : updAt t f (x :: xs) = (if x.ident = t then f x else x) :: updAt t f xs := rfl
    rw [hcons]
    by_cases hxt : x.ident = t
    · rw [if_pos hxt, getNode_cons, hf x]
      by_cases hxj : x.ident = j
      · have hjt : j = t := by rw [← hxj, hxt]
        rw [if_pos hxj, if_pos hjt, getNode_cons, if_pos hxt]
        rfl
      · have hjt : j ≠ t := fun hc => hxj (by rw [hxt, hc])
        rw [if_neg hxj, getNode_updAt f hf xs t j, if_neg hjt, if_neg hjt,
            getNode_cons, if_neg hxj]
    · rw [if_neg hxt, getNode_cons]
      by_cases hxj : x.ident = j
      · have hjt : j ≠ t := fun hc => hxt (by rw [hxj, hc])
        rw [if_pos hxj, if_neg hjt, getNode_cons, if_pos hxj]
      · rw [if_neg hxj, getNode_updAt f hf xs t j]
        by_cases hjt : j = t
        · rw [if_pos hjt, if_pos hjt, getNode_cons, if_neg hxt]
        · rw [if_neg hjt, if_neg hjt, getNode_cons, if_neg hxj]

theorem getNode_add_dependency_at (g : List FuncNode) (t i j : NodeId) :
    getNode (add_dependency_at g t i) j =
      if j = t then (getNode g t).map
        (fun m => { m with dependencies := insertIdent m.dependencies i })
      else getNode g j := by
  rw [add_dependency_at_eq]
  exact getNode_updAt (fun m => { m with dependencies := insertIdent m.dependencies i })
    (fun m => rfl) g t j

theorem getNode_add_dependent_at (g : List FuncNode) (t i j : NodeId) :
    getNode (add_dependent_at g t i) j =
      if j = t then (getNode g t).map
        (fun m => { m with dependents := insertIdent m.dependents i })
      else getNode g j := by
  rw [add_dependent_at_eq]
  exact getNode_updAt (fun m => { m with dependents := insertIdent m.dependents i })
    (fun m => rfl) g t j

theorem getNode_none_iff {g : List FuncNode} {i : NodeId} :
    getNode g i = none ↔ i ∉ ids g := by
  unfold getNode
  rw [List.find?_eq_none]
  constructor
  · intro h hmem
    obtain ⟨x, hx, hxi⟩ := List.mem_map.mp hmem
    exact absurd (decide_eq_true hxi) (h x hx)
  · intro h x hx hdec
    exact h (List.mem_map.mpr ⟨x, hx, of_decide_eq_true hdec⟩)

theorem getNode_some_of_mem_ids {g : List FuncNode} {i : NodeId} (h : i ∈ ids g) :
    ∃ v, getNode g i = some v := by
  cases hv : getNode g i with
  | some v => exact ⟨v, rfl⟩
  | none => exact absurd h (getNode_none_iff.mp hv)

theorem depsOf_add_dependent_at (g : List FuncNode) (t i j : NodeId) :
    depsOf (add_dependent_at g t i) j = depsOf g j := by
  unfold depsOf
  rw [getNode_add_dependent_at]
  by_cases h : j = t
  · rw [if_pos h, h]
    cases hv : getNode g t <;> simp
  · rw [if_neg h]

theorem dependentsOf_add_dependency_at (g : List FuncNode) (t i j : NodeId) :
    dependentsOf (add_dependency_at g t i) j = dependentsOf g j := by
  unfold dependentsOf
  rw [getNode_add_dependency_at]
  by_cases h : j = t
  · rw [if_pos h, h]
    cases hv : getNode g t <;> simp
  · rw [if_neg h]

theorem dependentsOf_add_dependent_at_self (g : List FuncNode) (t i : NodeId)
    (h : t ∈ ids g) :
    dependentsOf (add_dependent_at g t i) t = insertIdent (dependentsOf g t) i := by
  unfold dependentsOf
  rw [getNode_add_dependent_at, if_pos rfl]
  obtain ⟨v, hv⟩ := getNode_some_of_mem_ids h
  rw [hv]
  rfl

theorem dependentsOf_add_dependent_at_other (g : List FuncNode) (t i j : NodeId)
    (h : j ≠ t) :
    dependentsOf (add_dependent_at g t i) j = dependentsOf g j := by
  unfold dependentsOf
  rw [getNode_add_dependent_at, if_neg h]

theorem depsOf_add_dependency_at_self (g : List FuncNode) (t i : NodeId)
    (h : t ∈ ids g) :
    depsOf (add_dependency_at g t i) t = insertIdent (depsOf g t) i := by
  unfold depsOf
  rw [getNode_add_dependency_at, if_pos rfl]
  obtain ⟨v, hv⟩ := getNode_some_of_mem_ids h
  rw [hv]
  rfl

theorem depsOf_add_dependency_at_other (g : List FuncNode) (t i j : NodeId)
    (h : j ≠ t) :
    depsOf (add_dependency_at g t i) j = depsOf g j := by
  unfold depsOf
  rw [getNode_add_dependency_at, if_neg h]

theorem depsOf_add_node (g : List FuncNode) (n : FuncNode) (j : NodeId)
    (h : n ∈ g ∨ n.dependencies = []) :
    depsOf (add_node g n) j = depsOf g j := by
  unfold depsOf
  rw [getNode_add_node]
  cases hv : getNode g j with
  | some v => rfl
  | none =>
    by_cases hc : n.ident = j ∧ n.ident ∉ ids g
    · rw [if_pos hc]
      rcases h with h | h
      · exact absurd (mem_ids_of_mem h) hc.2
      · simp [h]
    · rw [if_neg hc]

theorem dependentsOf_add_node (g : List FuncNode) (n : FuncNode) (j : NodeId)
    (h : n ∈ g ∨ n.dependents = []) :
    dependentsOf (add_node g n) j = dependentsOf g j := by
  unfold dependentsOf
  rw [getNode_add_node]
  cases hv : getNode g j with
  | some v => rfl
  | none =>
    by_cases hc : n.ident = j ∧ n.ident ∉ ids g
    · rw [if_pos hc]
      rcases h with h | h
      · exact absurd (mem_ids_of_mem h) hc.2
      · simp [h]
    · rw [if_neg hc]

/-- The full effect of `add_edge` on directional edge sets, as a
function of the identity looked up: the caller's dependency set gains
the resolved dependency identity, the resolved dependency's dependent
set gains the caller identity, everything else is untouched. -/
theorem add_edge_depsOf (g : List FuncNode) (b : Bool) (dep : String)
    (t : FuncNode) (dn : Option FuncNode) (j : NodeId)
    (hthis : t ∈ g ∨ (t.dependencies = [] ∧ t.dependents = []))
    (hdn : dn = none ∨ ∃ d ∈ g, dn = some d) :
    depsOf (add_edge g b dep t dn) j =
      if j = t.ident
      then insertIdent (depsOf g t.ident) (resolveDepNode b dep dn).ident
      else depsOf g j := by
  have hdnprop : resolveDepNode b dep dn ∈ g ∨ (resolveDepNode b dep dn).dependencies = [] := by
    rcases hdn with rfl | ⟨d, hd, rfl⟩
    · right
      unfold resolveDepNode
      cases b <;> rfl
    · exact Or.inl hd
  have hthis' : t ∈ g ∨ t.dependencies = [] := hthis.imp id And.left
  have hmem2 : t.ident ∈ ids (add_node (add_node g t) (resolveDepNode b dep dn)) :=
    ids_subset_add_node _ _ (ident_mem_ids_add_node g t)
  rw [add_edge_eq, depsOf_add_dependent_at]
  by_cases h : j = t.ident
  · rw [if_pos h, h, depsOf_add_dependency_at_self _ _ _ hmem2]
    rw [depsOf_add_node _ _ _ (by
      by_cases hm : (resolveDepNode b dep dn).ident ∈ ids (add_node g t)
      · rcases hdnprop with hh | hh
        · exact Or.inl (by
            by_cases hmm : t.ident ∈ ids g
            · rw [add_node_mem_ids g t hmm]; exact hh
            · rw [add_node_not_mem g t hmm]; exact List.mem_append_left _ hh)
        · exact Or.inr hh
      · rcases hdnprop with hh | hh
        · exact absurd (ids_subset_add_node g t (mem_ids_of_mem hh)) hm
        · exact Or.inr hh)]
    rw [depsOf_add_node _ _ _ hthis']
  · rw [if_neg h, depsOf_add_dependency_at_other _ _ _ _ h]
    rw [depsOf_add_node _ _ _ (by
      rcases hdnprop with hh | hh
      · exact Or.inl (by
          by_cases hmm : t.ident ∈ ids g
          · rw [add_node_mem_ids g t hmm]; exact hh
          · rw [add_node_not_mem g t hmm]; exact List.mem_append_left _ hh)
      · exact Or.inr hh)]
    rw [depsOf_add_node _ _ _ hthis']

theorem ids_add_dependency_at (g : List FuncNode) (t i : NodeId) :
    ids (add_dependency_at g t i) = ids g := by
  unfold ids add_dependency_at
  rw [List.map_map]
  refine List.map_congr_left fun m _ => ?_
  show ((if m.ident = t
      then { m with dependencies := insertIdent m.dependencies i } else m) : FuncNode).ident
    = m.ident
  by_cases hm : m.ident = t
  · rw [if_pos hm]
    rfl
  · rw [if_neg hm]

theorem ids_add_dependent_at (g : List FuncNode) (t i : NodeId) :
    ids (add_dependent_at g t i) = ids g := by
  unfold ids add_dependent_at
  rw [List.map_map]
  refine List.map_congr_left fun m _ => ?_
  show ((if m.ident = t
      then { m with dependents := insertIdent m.dependents i } else m) : FuncNode).ident
    = m.ident
  by_cases hm : m.ident = t
  · rw [if_pos hm]
    rfl
  · rw [if_neg hm]

theorem add_edge_dependentsOf (g : List FuncNode) (b : Bool) (dep : String)
    (t : FuncNode) (dn : Option FuncNode) (j : NodeId)
    (hthis : t ∈ g ∨ (t.dependencies = [] ∧ t.dependents = []))
    (hdn : dn = none ∨ ∃ d ∈ g, dn = some d) :
    dependentsOf (add_edge g b dep t dn) j =
      if j = (resolveDepNode b dep dn).ident
      then insertIdent (dependentsOf g j) t.ident
      else dependentsOf g j := by
  have hdnprop : resolveDepNode b dep dn ∈ g ∨ (resolveDepNode b dep dn).dependents = [] := by
    rcases hdn with rfl | ⟨d, hd, rfl⟩
    · right
      unfold resolveDepNode
      cases b <;> rfl
    · exact Or.inl hd
  have hdn1 : resolveDepNode b dep dn ∈ add_node g t
      ∨ (resolveDepNode b dep dn).dependents = [] := by
    rcases hdnprop with hh | hh
    · exact Or.inl (by
        by_cases hmm : t.ident ∈ ids g
        · rw [add_node_mem_ids g t hmm]; exact hh
        · rw [add_node_not_mem g t hmm]; exact List.mem_append_left _ hh)
    · exact Or.inr hh
  have hthis' : t ∈ g ∨ t.dependents = [] := hthis.imp id And.right
  have hdmem3 : (resolveDepNode b dep dn).ident ∈
      ids (add_dependency_at (add_node (add_node g t) (resolveDepNode b dep dn))
        t.ident (resolveDepNode b dep dn).ident) := by
    rw [ids_add_dependency_at]
    exact ident_mem_ids_add_node _ _
  rw [add_edge_eq]
  by_cases h : j = (resolveDepNode b dep dn).ident
  · rw [if_pos h, h]
    rw [dependentsOf_add_dependent_at_self _ _ _ hdmem3]
    rw [dependentsOf_add_dependency_at]
    rw [dependentsOf_add_node _ _ _ hdn1, dependentsOf_add_node _ _ _ hthis']
  · rw [if_neg h, dependentsOf_add_dependent_at_other _ _ _ _ h,
      dependentsOf_add_dependency_at]
    rw [dependentsOf_add_node _ _ _ hdn1, dependentsOf_add_node _ _ _ hthis']

theorem countIdent_append (g h : List FuncNode) (i : NodeId) :
    countIdent (g ++ h) i = countIdent g i + countIdent h i := by
  unfold countIdent
  rw [List.filter_append, List.length_append]

theorem countIdent_eq_zero {g : List FuncNode} {i : NodeId} (h : i ∉ ids g) :
    countIdent g i = 0 := by
  unfold countIdent
  rw [List.length_eq_zero, List.filter_eq_nil_iff]
  intro m hm hdec
  exact h ((of_decide_eq_true hdec) ▸ mem_ids_of_mem hm)

theorem countIdent_single_self (n : FuncNode) : countIdent [n] n.ident = 1 := by
  unfold countIdent
  rw [List.filter_cons, if_pos (by simp)]
  rfl

theorem countIdent_add_node_mem (g : List FuncNode) (n : FuncNode) (i : NodeId)
    (h : i ∈ ids g) : countIdent (add_node g n) i = countIdent g i := by
  by_cases hmem : n.ident ∈ ids g
  · rw [add_node_mem_ids g n hmem]
  · rw [add_node_not_mem g n hmem, countIdent_append]
    have hne : n.ident ≠ i := fun hc => hmem (hc ▸ h)
    have h0 : countIdent [n] i = 0 := by
      unfold countIdent
      rw [List.filter_cons, if_neg (fun hc => hne (of_decide_eq_true hc))]
      rfl
    rw [h0]
    exact Nat.add_zero _

theorem countIdent_updAt (f : FuncNode → FuncNode) (hf : ∀ m, (f m).ident = m.ident) :
    ∀ (g : List FuncNode) (t i : NodeId), countIdent (updAt t f g) i = countIdent g i
  | [], _, _ => rfl
  | x :: xs, t, i => by
    have hcons : updAt t f (x :: xs) = (if x.ident = t then f x else x) :: updAt t f xs := rfl
    have hid : ((if x.ident = t then f x else x) : FuncNode).ident = x.ident := by
      by_cases h : x.ident = t
      · rw [if_pos h]; exact hf x
      · rw [if_neg h]
    unfold countIdent
    rw [hcons, List.filter_cons, List.filter_cons, hid]
    by_cases h : x.ident = i
    · rw [if_pos (decide_eq_true h), if_pos (decide_eq_true h),
        List.length_cons, List.length_cons]
      exact congrArg (· + 1) (countIdent_updAt f hf xs t i)
    · rw [if_neg (fun hc => h (of_decide_eq_true hc)),
        if_neg (fun hc => h (of_decide_eq_true hc))]
      exact countIdent_updAt f hf xs t i

theorem countIdent_add_edge_mem (g : List FuncNode) (b : Bool) (dep : String)
    (t : FuncNode) (dn : Option FuncNode) (i : NodeId) (h : i ∈ ids g) :
    countIdent (add_edge g b dep t dn) i = countIdent g i := by
  rw [add_edge_eq, add_dependent_at_eq, add_dependency_at_eq]
  rw [countIdent_updAt (fun m => { m with dependents := insertIdent m.dependents t.ident })
    (fun m => rfl)]
  rw [countIdent_updAt (fun m => { m with dependencies := insertIdent m.dependencies (resolveDepNode b dep dn).ident }) (fun m => rfl)]
  rw [countIdent_add_node_mem _ _ _ (ids_subset_add_node g t h),
    countIdent_add_node_mem _ _ _ h]

theorem depStep_skip (dep home : String) (acc : Option FuncNode) (n : FuncNode)
    (h : matchesCall dep n = false) : depStep dep home acc n = acc := by
  unfold depStep
  rw [h]
  rfl

theorem depStep_first (dep home : String) (n : FuncNode)
    (h : matchesCall dep n = true) : depStep dep home none n = some n := by
  unfold depStep
  rw [if_pos h]

theorem depStep_conflict (dep home : String) (d n : FuncNode)
    (h : matchesCall dep n = true) :
    depStep dep home (some d) n =
      if is_identifier n home && !(is_identifier d home) then some n else some d := by
  unfold depStep
  rw [if_pos h]

theorem foldl_depStep_of_no_match (dep home : String) :
    ∀ (g : List FuncNode) (acc : Option FuncNode),
      (∀ n ∈ g, matchesCall dep n = false) → g.foldl (depStep dep home) acc = acc
  | [], acc, _ => rfl
  | x :: xs, acc, h => by
    show List.foldl (depStep dep home) (depStep dep home acc x) xs = acc
    rw [depStep_skip dep home acc x (h x (List.mem_cons_self x xs))]
    exact foldl_depStep_of_no_match dep home xs acc
      (fun n hn => h n (List.mem_cons_of_mem x hn))

theorem depStep_some (dep home : String) (d n : FuncNode) :
    ∃ y, depStep dep home (some d) n = some y := by
  by_cases h : matchesCall dep n = true
  · rw [depStep_conflict dep home d n h]
    by_cases h2 : (is_identifier n home && !(is_identifier d home)) = true
    · exact ⟨n, by rw [if_pos h2]⟩
    · exact ⟨d, by rw [if_neg h2]⟩
  · exact ⟨d, depStep_skip dep home (some d) n (by
      cases hv : matchesCall dep n
      · rfl
      · exact absurd hv h)⟩

theorem foldl_depStep_some (dep home : String) :
    ∀ (g : List FuncNode) (d : FuncNode),
      ∃ y, g.foldl (depStep dep home) (some d) = some y
  | [], d => ⟨d, rfl⟩
  | x :: xs, d => by
    show ∃ y, List.foldl (depStep dep home) (depStep dep home (some d) x) xs = some y
    obtain ⟨z, hz⟩ := depStep_some dep home d x
    rw [hz]
    exact foldl_depStep_some dep home xs z

theorem foldl_depStep_tie_acc (dep home : String) (s : Bool) :
    ∀ (g : List FuncNode) (d : FuncNode),
      is_identifier d home = s →
      (∀ n ∈ g, matchesCall dep n = true → is_identifier n home = s) →
      g.foldl (depStep dep home) (some d) = some d
  | [], _, _, _ => rfl
  | x :: xs, d, hd, hall => by
    show List.foldl (depStep dep home) (depStep dep home (some d) x) xs = some d
    have hstep : depStep dep home (some d) x = some d := by
      by_cases hm : matchesCall dep x = true
      · rw [depStep_conflict dep home d x hm]
        have hsc : (is_identifier x home && !(is_identifier d home)) = false := by
          rw [hall x (List.mem_cons_self x xs) hm, hd]
          cases s <;> rfl
        rw [hsc]
        rfl
      · exact depStep_skip dep home (some d) x (by
          cases hv : matchesCall dep x
          · rfl
          · exact absurd hv hm)
    rw [hstep]
    exact foldl_depStep_tie_acc dep home s xs d hd
      (fun n hn => hall n (List.mem_cons_of_mem x hn))

/-- The documented tie-break: when every candidate for the callee name
scores the same under `is_identifier(home)`, the selection loop keeps
the first candidate encountered in the graph's iteration order. -/
theorem foldl_depStep_tie (dep home : String) (s : Bool) :
    ∀ g : List FuncNode,
      (∀ n ∈ g, matchesCall dep n = true → is_identifier n home = s) →
      g.foldl (depStep dep home) none = (g.filter (matchesCall dep)).head?
  | [], _ => rfl
  | x :: xs, hall => by
    show List.foldl (depStep dep home) (depStep dep home none x) xs = _
    by_cases hm : matchesCall dep x = true
    · rw [depStep_first dep home x hm]
      rw [List.filter_cons, if_pos (by simpa using hm)]
      exact foldl_depStep_tie_acc dep home s xs x (hall x (List.mem_cons_self x xs) hm)
        (fun n hn => hall n (List.mem_cons_of_mem x hn))
    · rw [depStep_skip dep home none x (by
        cases hv : matchesCall dep x
        · rfl
        · exact absurd hv hm)]
      rw [List.filter_cons, if_neg (by simpa using hm)]
      exact foldl_depStep_tie dep home s xs (fun n hn => hall n (List.mem_cons_of_mem x hn))

theorem foldl_findThis_mem (cid : Nat) :
    ∀ (g : List FuncNode) (acc : Option FuncNode) (t : FuncNode),
      g.foldl (fun acc n => if n.ast_node == some cid then some n else acc) acc = some t →
      acc = some t ∨ t ∈ g
  | [], acc, t, h => Or.inl h
  | x :: xs, acc, t, h => by
    rcases foldl_findThis_mem cid xs (if x.ast_node == some cid then some x else acc) t h
      with h1 | h1
    · by_cases hx : (x.ast_node == some cid) = true
      · rw [if_pos hx] at h1
        exact Or.inr (List.mem_cons.mpr (Or.inl (Option.some_inj.mp h1).symm))
      · rw [if_neg hx] at h1
        exact Or.inl h1
    · exact Or.inr (List.mem_cons_of_mem x h1)

theorem findThisNode_mem {g : List FuncNode} {cid : Nat} {t : FuncNode}
    (h : findThisNode g cid = some t) : t ∈ g := by
  rcases foldl_findThis_mem cid g none t h with h1 | h1
  · exact absurd h1 (by simp)
  · exact h1

theorem resolveThisNode_ok (st : EDState) (callId : Nat) :
    resolveThisNode st callId ∈ st.graph
      ∨ ((resolveThisNode st callId).dependencies = []
        ∧ (resolveThisNode st callId).dependents = []) := by
  unfold resolveThisNode
  cases hft : findThisNode st.graph callId with
  | some t => exact Or.inl (findThisNode_mem hft)
  | none => exact Or.inr ⟨rfl, rfl⟩

theorem visit_Call_eq (builtins : List String) (st : EDState) (func : CallFunc)
    (callId : Nat) (dep home : String)
    (hnh : callNameHome st func = some (dep, home))
    (hgate : builtins.contains dep = false ∨ st.allow_built_ins = true) :
    (visit_Call builtins st func callId).graph =
      add_edge st.graph (builtins.contains dep) dep (resolveThisNode st callId)
        (st.graph.foldl (depStep dep home) none)
    ∧ (visit_Call builtins st func callId).log = st.log
    ∧ (visit_Call builtins st func callId).allow_built_ins = st.allow_built_ins
    ∧ (visit_Call builtins st func callId).current_filename = st.current_filename := by
  unfold visit_Call resolveThisNode
  rw [hnh]
  simp only []
  rw [if_pos hgate]
  cases hft : findThisNode st.graph callId with
  | some t => exact ⟨rfl, rfl, rfl, rfl⟩
  | none => exact ⟨rfl, rfl, rfl, rfl⟩

theorem visit_Call_skip (builtins : List String) (st : EDState) (func : CallFunc)
    (callId : Nat) (dep home : String)
    (hnh : callNameHome st func = some (dep, home))
    (hbi : builtins.contains dep = true) (hallow : st.allow_built_ins = false) :
    visit_Call builtins st func callId = st := by
  unfold visit_Call
  rw [hnh]
  simp only []
  rw [if_neg (show ¬(builtins.contains dep = false ∨ st.allow_built_ins = true) from by
    rintro (hc | hc)
    · rw [hbi] at hc; cases hc
    · rw [hallow] at hc; cases hc)]

theorem countIdent_add_node_add_node_fresh (g : List FuncNode) (t p : FuncNode)
    (hp : p.ident ∉ ids g) :
    countIdent (add_node (add_node g t) p) p.ident = 1 := by
  by_cases ht : t.ident = p.ident
  · have htmem : t.ident ∉ ids g := ht ▸ hp
    rw [add_node_not_mem g t htmem]
    have hpm : p.ident ∈ ids (g ++ [t]) := by
      rw [ids_append]
      exact List.mem_append_right _ (by rw [← ht]; simp [ids])
    rw [add_node_mem_ids _ p hpm, countIdent_append, countIdent_eq_zero hp, ← ht,
      countIdent_single_self]
  · have h0 : countIdent [t] p.ident = 0 := countIdent_eq_zero (by
      simp only [ids, List.map_cons, List.map_nil, List.mem_singleton]
      exact fun hc => ht hc.symm)
    by_cases htg : t.ident ∈ ids g
    · rw [add_node_mem_ids g t htg, add_node_not_mem g p hp, countIdent_append,
        countIdent_eq_zero hp, countIdent_single_self]
    · rw [add_node_not_mem g t htg]
      have hp1 : p.ident ∉ ids (g ++ [t]) := by
        rw [ids_append]
        intro hc
        rcases List.mem_append.mp hc with hc | hc
        · exact hp hc
        · simp only [ids, List.map_cons, List.map_nil, List.mem_singleton] at hc
          exact ht hc.symm
      rw [add_node_not_mem _ p hp1, countIdent_append, countIdent_append,
        countIdent_eq_zero hp, h0, countIdent_single_self]

theorem countIdent_add_edge_fresh_none (g : List FuncNode) (b : Bool) (dep : String)
    (t : FuncNode) (hp : (resolveDepNode b dep none).ident ∉ ids g) :
    countIdent (add_edge g b dep t none) (resolveDepNode b dep none).ident = 1 := by
  rw [add_edge_eq, add_dependent_at_eq, add_dependency_at_eq]
  rw [countIdent_updAt (fun m => { m with dependents := insertIdent m.dependents t.ident }) (fun m => rfl)]
  rw [countIdent_updAt (fun m => { m with dependencies := insertIdent m.dependencies (resolveDepNode b dep none).ident }) (fun m => rfl)]
  exact countIdent_add_node_add_node_fresh g t (resolveDepNode b dep none) hp

/-- Counterexample for C6 as stated: with the built-ins flag set, a
call to the built-in name `len` in a graph that also declares its own
callable named `len` resolves to the declared node, and no
`("System","Builtins","len")` placeholder is created -- even though the
callee name is in the host built-in namespace. -/
theorem c6_builtins_counterexample :
    "len" ∈ ["len"]
    ∧ (⟨"System", "Builtins", "len"⟩ : NodeId) ∉
        ids (visit_Call ["len"]
          { graph := [mkNode "u.py" "" "len" false (some 7)], current_class := "",
            current_function := "", current_filename := "u.py",
            allow_built_ins := true, log := [] }
          (CallFunc.nameF "len") 99).graph := by
  decide

/-- C6 as amended: for a call expression whose callee name is in the
host built-in namespace, (a) with the built-ins flag off no node and no
edge is created -- the visitor state is returned unchanged; (b) with
the flag on, provided no registered node matches the callee name (a
declared callable shadowing the built-in takes priority in the search
loop), a placeholder with identity `("System","Builtins",name)` is
inserted exactly once, the edge to it is recorded on both endpoints,
and a subsequent call to the same name reuses the canonical instance:
the placeholder count remains one. -/
theorem c6_builtins_placeholder (builtins : List String) (st : EDState)
    (func func2 : CallFunc) (callId callId2 : Nat) (dep home home2 : String)
    (hnh : callNameHome st func = some (dep, home))
    (hb : builtins.contains dep = true) :
    (st.allow_built_ins = false → visit_Call builtins st func callId = st)
    ∧ (st.allow_built_ins = true →
      (∀ n ∈ st.graph, matchesCall dep n = false) →
      (countIdent (visit_Call builtins st func callId).graph ⟨"System", "Builtins", dep⟩ = 1
      ∧ (⟨"System", "Builtins", dep⟩ : NodeId) ∈
          depsOf (visit_Call builtins st func callId).graph (resolveThisNode st callId).ident
      ∧ dependentsOf (visit_Call builtins st func callId).graph ⟨"System", "Builtins", dep⟩
          = [(resolveThisNode st callId).ident]
      ∧ (callNameHome (visit_Call builtins st func callId) func2 = some (dep, home2) →
          countIdent
            (visit_Call builtins (visit_Call builtins st func callId) func2 callId2).graph
            ⟨"System", "Builtins", dep⟩ = 1))) := by
  constructor
  · intro hallow
    exact visit_Call_skip builtins st func callId dep home hnh hb hallow
  · intro hallow hnomatch
    obtain ⟨hgraph, hlog, hab, hfn⟩ :=
      visit_Call_eq builtins st func callId dep home hnh (Or.inr hallow)
    have hfold : st.graph.foldl (depStep dep home) none = none :=
      foldl_depStep_of_no_match dep home st.graph none hnomatch
    have hplid : (resolveDepNode (builtins.contains dep) dep none).ident
        = ⟨"System", "Builtins", dep⟩ := by
      rw [hb]
      rfl
    have hpl_not_mem : (⟨"System", "Builtins", dep⟩ : NodeId) ∉ ids st.graph := by
      intro hc
      obtain ⟨x, hx, hxe⟩ := List.mem_map.mp hc
      have hname : x.name = dep := congrArg NodeId.name hxe
      have : matchesCall dep x = true := by
        unfold matchesCall
        rw [hname]
        simp
      rw [hnomatch x hx] at this
      cases this
    have hcount1 : countIdent (visit_Call builtins st func callId).graph
        ⟨"System", "Builtins", dep⟩ = 1 := by
      rw [hgraph, hfold, ← hplid]
      exact countIdent_add_edge_fresh_none st.graph (builtins.contains dep) dep
        (resolveThisNode st callId) (by rw [hplid]; exact hpl_not_mem)
    refine ⟨hcount1, ?_, ?_, ?_⟩
    · rw [hgraph, hfold]
      rw [add_edge_depsOf st.graph (builtins.contains dep) dep
        (resolveThisNode st callId) none (resolveThisNode st callId).ident
        (resolveThisNode_ok st callId) (Or.inl rfl)]
      rw [if_pos rfl, hplid]
      exact mem_insertIdent.mpr (Or.inr rfl)
    · rw [hgraph, hfold]
      rw [add_edge_dependentsOf st.graph (builtins.contains dep) dep
        (resolveThisNode st callId) none ⟨"System", "Builtins", dep⟩
        (resolveThisNode_ok st callId) (Or.inl rfl)]
      rw [if_pos hplid.symm]
      have hdeps0 : dependentsOf st.graph ⟨"System", "Builtins", dep⟩ = [] := by
        unfold dependentsOf
        rw [getNode_none_iff.mpr hpl_not_mem]
        rfl
      rw [hdeps0]
      unfold insertIdent
      rw [if_neg (List.not_mem_nil _)]
      rfl
    · intro hnh2
      obtain ⟨hgraph2, _, _, _⟩ :=
        visit_Call_eq builtins (visit_Call builtins st func callId) func2 callId2 dep home2
          hnh2 (Or.inr (by rw [hab]; exact hallow))
      rw [hgraph2]
      rw [countIdent_add_edge_mem _ _ _ _ _ _ (by
        by_contra hc
        rw [countIdent_eq_zero hc] at hcount1
        cases hcount1)]
      exact hcount1

/-- A concrete `EdgeDetector` state for the C6 witness: empty graph,
built-ins flag on. -/
def c6WitnessState : EDState :=
  { graph := [], current_class := "", current_function := "f",
    current_filename := "u.py", allow_built_ins := true, log := [] }

/-- Witness for C6: two calls to `len` on an empty graph with the flag
set produce exactly one `("System","Builtins","len")` placeholder. -/
theorem c6_builtins_placeholder_witness :
    countIdent (visit_Call ["len"] c6WitnessState (CallFunc.nameF "len") 99).graph
      ⟨"System", "Builtins", "len"⟩ = 1
    ∧ countIdent (visit_Call ["len"]
        (visit_Call ["len"] c6WitnessState (CallFunc.nameF "len") 99)
        (CallFunc.nameF "len") 100).graph ⟨"System", "Builtins", "len"⟩ = 1 :=
  ⟨((c6_builtins_placeholder ["len"] c6WitnessState (CallFunc.nameF "len")
      (CallFunc.nameF "len") 99 100 "len" "u.py" "u.py" rfl (by decide)).2 rfl
      (fun n hn => absurd hn (List.not_mem_nil n))).1,
   ((c6_builtins_placeholder ["len"] c6WitnessState (CallFunc.nameF "len")
      (CallFunc.nameF "len") 99 100 "len" "u.py" "u.py" rfl (by decide)).2 rfl
      (fun n hn => absurd hn (List.not_mem_nil n))).2.2.2 (by decide)⟩

/-- Counterexample for C5 as stated: two methods `run` of classes `T1`
and `T2`, a call `obj.run()` whose receiver cannot be statically named,
both candidates scoring false under `is_identifier` -- the resolution
is ambiguous, exactly one edge is created to the first candidate, but
NO diagnostic is emitted: the printed log stays empty, because the
ambiguity print (mapper.py:297-298) is commented out. -/
theorem c5_ambiguity_counterexample :
    (List.filter (matchesCall "run")
      [mkNode "u.py" "T1" "run" false (some 1), mkNode "u.py" "T2" "run" false (some 2)]).length = 2
    ∧ (∀ n ∈ [mkNode "u.py" "T1" "run" false (some 1), mkNode "u.py" "T2" "run" false (some 2)],
        is_identifier n "" = false)
    ∧ (visit_Call ["len"]
        { graph := [mkNode "u.py" "T1" "run" false (some 1),
            mkNode "u.py" "T2" "run" false (some 2)],
          current_class := "", current_function := "f", current_filename := "u.py",
          allow_built_ins := false, log := [] }
        (CallFunc.attr none "run") 9).log = []
    ∧ depsOf (visit_Call ["len"]
        { graph := [mkNode "u.py" "T1" "run" false (some 1),
            mkNode "u.py" "T2" "run" false (some 2)],
          current_class := "", current_function := "f", current_filename := "u.py",
          allow_built_ins := false, log := [] }
        (CallFunc.attr none "run") 9).graph ⟨"u.py", "", "f"⟩
      = [⟨"u.py", "T1", "run"⟩] := by
  decide

/-- C5 as amended: when a call site matches two or more candidates that
all score equally under `is_identifier(qualifyingContext)`, resolution
is ambiguous and the program (a) emits no diagnostic (the diagnostic
print is commented out in the source), (b) deterministically selects
the first candidate encountered in the search, and (c) creates exactly
one edge -- the first candidate's dependent set gains the caller and no
other identity's dependent set changes; the condition is never
surfaced as a failure (the visitor returns normally). -/
theorem c5_ambiguous_tie (builtins : List String) (st : EDState) (func : CallFunc)
    (callId : Nat) (dep home : String) (s : Bool) (c0 c1 : FuncNode)
    (rest : List FuncNode)
    (hnh : callNameHome st func = some (dep, home))
    (hgate : builtins.contains dep = false ∨ st.allow_built_ins = true)
    (hcands : st.graph.filter (matchesCall dep) = c0 :: c1 :: rest)
    (hties : ∀ n ∈ st.graph, matchesCall dep n = true → is_identifier n home = s) :
    (visit_Call builtins st func callId).log = st.log
    ∧ st.graph.foldl (depStep dep home) none = some c0
    ∧ dependentsOf (visit_Call builtins st func callId).graph c0.ident
        = insertIdent (dependentsOf st.graph c0.ident) (resolveThisNode st callId).ident
    ∧ ∀ j : NodeId, j ≠ c0.ident →
        dependentsOf (visit_Call builtins st func callId).graph j
          = dependentsOf st.graph j := by
  obtain ⟨hgraph, hlog, _, _⟩ := visit_Call_eq builtins st func callId dep home hnh hgate
  have hfold : st.graph.foldl (depStep dep home) none = some c0 := by
    rw [foldl_depStep_tie dep home s st.graph hties, hcands]
    rfl
  have hc0mem : c0 ∈ st.graph := by
    have : c0 ∈ st.graph.filter (matchesCall dep) := by
      rw [hcands]
      exact List.mem_cons_self c0 _
    exact (List.mem_filter.mp this).1
  have hresolved : resolveDepNode (builtins.contains dep) dep
      (st.graph.foldl (depStep dep home) none) = c0 := by
    rw [hfold]
    rfl
  refine ⟨hlog, hfold, ?_, ?_⟩
  · rw [hgraph]
    rw [add_edge_dependentsOf st.graph (builtins.contains dep) dep
      (resolveThisNode st callId) (st.graph.foldl (depStep dep home) none) c0.ident
      (resolveThisNode_ok st callId) (Or.inr ⟨c0, hc0mem, hfold⟩)]
    rw [hresolved, if_pos rfl]
  · intro j hj
    rw [hgraph]
    rw [add_edge_dependentsOf st.graph (builtins.contains dep) dep
      (resolveThisNode st callId) (st.graph.foldl (depStep dep home) none) j
      (resolveThisNode_ok st callId) (Or.inr ⟨c0, hc0mem, hfold⟩)]
    rw [hresolved, if_neg hj]

/-- Witness for C5: the Scenario-D state -- two same-named methods,
unnameable receiver -- run through the amended theorem. -/
theorem c5_ambiguous_tie_witness :
    (visit_Call ["len"]
      { graph := [mkNode "u.py" "T1" "run" false (some 1),
          mkNode "u.py" "T2" "run" false (some 2)],
        current_class := "", current_function := "f", current_filename := "u.py",
        allow_built_ins := false, log := [] }
      (CallFunc.attr none "run") 9).log = []
    ∧ List.foldl (depStep "run" "") none
        [mkNode "u.py" "T1" "run" false (some 1), mkNode "u.py" "T2" "run" false (some 2)]
      = some (mkNode "u.py" "T1" "run" false (some 1)) :=
  ⟨(c5_ambiguous_tie ["len"]
      { graph := [mkNode "u.py" "T1" "run" false (some 1),
          mkNode "u.py" "T2" "run" false (some 2)],
        current_class := "", current_function := "f", current_filename := "u.py",
        allow_built_ins := false, log := [] }
      (CallFunc.attr none "run") 9 "run" "" false
      (mkNode "u.py" "T1" "run" false (some 1)) (mkNode "u.py" "T2" "run" false (some 2)) []
      rfl (Or.inl (by decide)) (by decide) (by decide)).1,
   (c5_ambiguous_tie ["len"]
      { graph := [mkNode "u.py" "T1" "run" false (some 1),
          mkNode "u.py" "T2" "run" false (some 2)],
        current_class := "", current_function := "f", current_filename := "u.py",
        allow_built_ins := false, log := [] }
      (CallFunc.attr none "run") 9 "run" "" false
      (mkNode "u.py" "T1" "run" false (some 1)) (mkNode "u.py" "T2" "run" false (some 2)) []
      rfl (Or.inl (by decide)) (by decide) (by decide)).2.1⟩

/-! ### Scope save/restore: `ASTParser.handle_node` (C8) -/

/-- The two visitor slots `handle_node` is invoked with
(`self.__dict__[title]`, mapper.py:170-173): `"current_class"` and
`"current_function"`. -/
inductive SlotName where
  | classSlot
  | funcSlot
deriving DecidableEq, Repr

/-- The two scope slots of an `ASTParser` visitor. -/
structure ScopeVars where
  current_class : String
  current_function : String
deriving DecidableEq, Repr

def getSlot : SlotName → ScopeVars → String
  | SlotName.classSlot, s => s.current_class
  | SlotName.funcSlot, s => s.current_function

def setSlot : SlotName → String → ScopeVars → ScopeVars
  | SlotName.classSlot, v, s => { s with current_class := v }
  | SlotName.funcSlot, v, s => { s with current_function := v }

/-- `ASTParser.handle_node` (mapper.py:175-179).  The handler models
the descent (`self.generic_visit` or one of the node-adding handlers):
it returns the visitor state it left behind together with `none` on
normal return or `some msg` when it raised.  The source saves the slot,
sets it to the declaration's name, runs the handler, and runs the
restoring assignment only when the handler returns normally -- there is
no `try`/`finally`, so a raise skips the restore and propagates with
the state as the descent left it. -/
def handle_node (title : SlotName) (name : String)
    (handler : ScopeVars → ScopeVars × Option String) (s : ScopeVars) :
    ScopeVars × Option String :=
  let old_title := getSlot title s
  let s1 := setSlot title name s
  let r := handler s1
  match r.2 with
  | none => (setSlot title old_title r.1, none)
  | some e => (r.1, some e)

/-- Counterexample for C8 as stated: a descent that raises (here: a
handler returning an error without touching the state, as `ast.parse`
of a malformed imported unit does inside `crawl_import`) leaves the
slot set to the declaration's name `"B"`, not restored to the saved
`"A"`. -/
theorem c8_restore_counterexample :
    (handle_node SlotName.classSlot "B" (fun st => (st, some "SyntaxError"))
      ⟨"A", ""⟩).1.current_class = "B"
    ∧ "B" ≠ "A" := by
  decide

/-- C8 as amended: `handle_node` saves the enclosing-scope slot, sets
it to the declaration's name for the descent, and restores the saved
value on normal exit; but when the descent raises, the restoring
assignment is skipped -- the exception propagates with the visitor
state exactly as the descent left it, so the slot is NOT restored on
the error path. -/
theorem c8_scope_restore (title : SlotName) (name : String)
    (handler : ScopeVars → ScopeVars × Option String) (s : ScopeVars) :
    ((handler (setSlot title name s)).2 = none →
      (handle_node title name handler s)
        = (setSlot title (getSlot title s) (handler (setSlot title name s)).1, none))
    ∧ ∀ e : String, (handler (setSlot title name s)).2 = some e →
      (handle_node title name handler s) = ((handler (setSlot title name s)).1, some e) := by
  constructor
  · intro h
    simp only [handle_node]
    rw [h]
  · intro e h
    simp only [handle_node]
    rw [h]

/-- Witness for C8: a normal descent restores the saved class slot, and
a raising descent does not. -/
theorem c8_scope_restore_witness :
    handle_node SlotName.classSlot "B" (fun st => (st, none)) ⟨"A", ""⟩
      = (⟨"A", ""⟩, none)
    ∧ handle_node SlotName.classSlot "B" (fun st => (st, some "boom")) ⟨"A", ""⟩
      = (⟨"B", ""⟩, some "boom") :=
  ⟨(c8_scope_restore SlotName.classSlot "B" (fun st => (st, none)) ⟨"A", ""⟩).1 rfl,
   (c8_scope_restore SlotName.classSlot "B" (fun st => (st, some "boom")) ⟨"A", ""⟩).2
     "boom" rfl⟩

/-! ### The declaration scanner and the import crawler (C3, C4, C9) -/

/-- The syntax-tree statement kinds the scanner dispatches on: class
and function declarations with their bodies, `import` statements with
their referenced names, and call expressions (ignored by the
declaration pass, which has no `visit_Call`). -/
inductive PyStmt where
  | classDef (name : String) (body : List PyStmt)
  | funcDef (name : String) (astId : Nat) (body : List PyStmt)
  | importStmt (names : List String)
  | callStmt (func : CallFunc) (astId : Nat)

/-- The environment's verdict on one `importlib.import_module` attempt
followed by `imported.__file__`, `open` and `ast.parse`
(mapper.py:211-215): success yields the module file's base name and its
parsed tree; `importErr` is a raised `ImportError` (caught, retried at
the next prefix); `attrErr` is a raised `AttributeError` (a module
without `__file__`, caught, recorded as uncrawled); `parseErr` is an
exception of any other class (unreadable or malformed module source),
which no `except` clause catches. -/
inductive CrawlOut where
  | ok (shortName : String) (tree : List PyStmt)
  | importErr
  | attrErr
  | parseErr (msg : String)

/-- The dotted folder string built by `crawl_import`
(mapper.py:203-208): the loop walks `x` from
`len(folders) - folder_index` to `len(folders) - 2`, appending each
non-empty segment and a dot. -/
def buildFolder (folders : List String) (folder_index : Nat) : String :=
  let l := folders.length
  let start := l - folder_index
  ((folders.drop start).take (l - 1 - start)).foldl
    (fun acc f => if f ≠ "" then acc ++ f ++ "." else acc) ""

/-- The outcome of one full `crawl_import` retry chain for one imported
reference: the names attempted in order, the successfully imported
name with its module file and tree (if any), the name recorded in the
per-instance uncrawled set (if any), and a propagated exception
message (if any). -/
structure CrawlRes where
  attempts : List String
  imported : Option (String × String × List PyStmt)
  uncrawledAdd : Option String
  fatal : Option String

/-- `NodeCreator.crawl_import` (mapper.py:201-224), with
`remaining = len(folders) - folder_index` as the structural measure of
the retry recursion (the guard at mapper.py:219 is
`folder_index < len(folders)`, i.e. `remaining > 0`): try the candidate
name at the current prefix; on `ImportError` retry at the next prefix
or, with the segments exhausted, record the reference name as
uncrawled; on `AttributeError` record it immediately; on success hand
the imported module back to the caller; any other exception
propagates. -/
def crawl_import (env : String → CrawlOut) (folders : List String) (refName : String) :
    Nat → Nat → CrawlRes
  | remaining, folder_index =>
    let nm := buildFolder folders folder_index ++ refName
    match env nm with
    | CrawlOut.ok file tree => ⟨[nm], some (nm, file, tree), none, none⟩
    | CrawlOut.attrErr => ⟨[nm], none, some refName, none⟩
    | CrawlOut.parseErr m => ⟨[nm], none, none, some m⟩
    | CrawlOut.importErr =>
      match remaining with
      | 0 => ⟨[nm], none, some refName, none⟩
      | r + 1 =>
        let rest := crawl_import env folders refName r (folder_index + 1)
        ⟨nm :: rest.attempts, rest.imported, rest.uncrawledAdd, rest.fatal⟩

/-- `crawl_import(node, reference, folders)` as called from
`visit_Import` (mapper.py:199): `folder_index` starts at 0, so the
retry guard admits `len(folders)` retries after the initial attempt. -/
def crawlTop (env : String → CrawlOut) (folders : List String) (refName : String) :
    CrawlRes :=
  crawl_import env folders refName folders.length 0

/-- Python `set.add` on a set of strings, modelled on duplicate-free
lists. -/
def insertStr (l : List String) (s : String) : List String :=
  if s ∈ l then l else l ++ [s]

/-- State of a `NodeCreator` (mapper.py:145-160): the class-level graph
shared by every parser instance, the two scope slots, the import set
(aliased with `search.crawled_imports` through the `imports=`
constructor argument) and the per-instance `_uncrawled` set. -/
structure NCState where
  graph : List FuncNode
  current_class : String
  current_function : String
  imports : List String
  uncrawled : List String
deriving DecidableEq, Repr

mutual
/-- `NodeCreator` visit of one statement of a secondary unit
(`recursive=True`, reached through `crawl_import`): class and function
declarations register nodes with `hidden=True` under the
save/descend/restore discipline, while `visit_Import` does nothing --
the guard at mapper.py:196 caps import-following at one hop -- so the
secondary scan cannot raise. -/
def ncStmtSec (fn : String) (st : NCState) : PyStmt → NCState
  | PyStmt.classDef nm body =>
    let old := st.current_class
    let st1 := { st with current_class := nm }
    let st2 := { st1 with graph := add_node st1.graph (mkNode fn nm "__init__" true none) }
    let st3 := ncStmtsSec fn st2 body
    { st3 with current_class := old }
  | PyStmt.funcDef nm aid body =>
    let old := st.current_function
    let st1 := { st with current_function := nm }
    let st2 := { st1 with
      graph := add_node st1.graph (mkNode fn st1.current_class nm true (some aid)) }
    let st3 := ncStmtsSec fn st2 body
    { st3 with current_function := old }
  | PyStmt.importStmt _ => st
  | PyStmt.callStmt _ _ => st

/-- `NodeCreator.generic_visit` over a statement list of a secondary
unit. -/
def ncStmtsSec (fn : String) (st : NCState) : List PyStmt → NCState
  | [] => st
  | s :: rest => ncStmtsSec fn (ncStmtSec fn st s) rest
end

/-- `crawl_import` for one reference with its effects on the scanner
state (mapper.py:211-224): on success the imported dotted name is added
to the (shared) import set and the imported tree is scanned by a fresh
secondary `NodeCreator` that shares only the class-level graph; an
unresolvable reference lands in the per-instance uncrawled set; a
parse failure propagates before any of those effects. -/
def ncCrawlRef (env : String → CrawlOut) (folders : List String) (refName : String)
    (st : NCState) : NCState × Option String :=
  let r := crawlTop env folders refName
  match r.fatal with
  | some m => (st, some m)
  | none =>
    let st1 := match r.imported with
      | some (inm, file, tree) =>
        let sec := ncStmtsSec file
          { graph := st.graph, current_class := "", current_function := "",
            imports := [], uncrawled := [] } tree
        { st with graph := sec.graph, imports := insertStr st.imports inm }
      | none => st
    match r.uncrawledAdd with
    | some nm => ({ st1 with uncrawled := insertStr st1.uncrawled nm }, none)
    | none => (st1, none)

/-- Python exception flow around a scan step: when the step returned
normally, continue with `k`; when it raised, propagate with the state
the step left behind. -/
def scanThen (p : NCState × Option String) (k : NCState → NCState × Option String) :
    NCState × Option String :=
  match p with
  | (st1, some m) => (st1, some m)
  | (st1, none) => k st1

/-- The `handle_node` restore of the class slot (mapper.py:179), run
only on normal return of the descent. -/
def restoreClass (old : String) : NCState × Option String → NCState × Option String
  | (st3, some m) => (st3, some m)
  | (st3, none) => ({ st3 with current_class := old }, none)

/-- The `handle_node` restore of the function slot (mapper.py:179), run
only on normal return of the descent. -/
def restoreFunc (old : String) : NCState × Option String → NCState × Option String
  | (st3, some m) => (st3, some m)
  | (st3, none) => ({ st3 with current_function := old }, none)

/-- `NodeCreator.visit_Import` (mapper.py:194-199) for a non-secondary
unit: crawl each reference in order; an uncaught exception stops the
loop and propagates. -/
def ncImports (env : String → CrawlOut) (folders : List String) :
    List String → NCState → NCState × Option String
  | [], st => (st, none)
  | nm :: rest, st =>
    scanThen (ncCrawlRef env folders nm st) (fun st1 => ncImports env folders rest st1)

mutual
/-- `NodeCreator` visit of one statement of a directly requested unit
(`recursive=False`): declarations register visible nodes under the
`handle_node` discipline -- the restoring assignment runs only when the
descent returns normally (mapper.py:175-179) -- and `visit_Import`
crawls each referenced name. -/
def ncStmt (env : String → CrawlOut) (fn : String) (folders : List String)
    (st : NCState) : PyStmt → NCState × Option String
  | PyStmt.classDef nm body =>
    let old := st.current_class
    let st1 := { st with current_class := nm }
    let st2 := { st1 with graph := add_node st1.graph (mkNode fn nm "__init__" false none) }
    restoreClass old (ncStmts env fn folders st2 body)
  | PyStmt.funcDef nm aid body =>
    let old := st.current_function
    let st1 := { st with current_function := nm }
    let st2 := { st1 with
      graph := add_node st1.graph (mkNode fn st1.current_class nm false (some aid)) }
    restoreFunc old (ncStmts env fn folders st2 body)
  | PyStmt.importStmt names => ncImports env folders names st
  | PyStmt.callStmt _ _ => (st, none)

/-- `NodeCreator.visit`/`generic_visit` over a statement list of a
directly requested unit. -/
def ncStmts (env : String → CrawlOut) (fn : String) (folders : List String)
    (st : NCState) : List PyStmt → NCState × Option String
  | [] => (st, none)
  | s :: rest => scanThen (ncStmt env fn folders st s) (fun st1 => ncStmts env fn folders st1 rest)
end

/-- One requested source unit, with the values the parser derives from
its path: `shortName` is `filename.split(os.sep)[-1]` (mapper.py:160),
`folders` is the directory portion, working directory stripped, split
at `os.sep` (mapper.py:163-166, 198) -- a trailing empty segment
included, since the directory string ends in a separator -- and `parse`
is the outcome of `open(...)` followed by `ast.parse` (mapper.py:343). -/
structure SourceUnit where
  filename : String
  shortName : String
  folders : List String
  parse : Except String (List PyStmt)

/-- The accumulators of the `Search` object (mapper.py:12-22) together
with the class-level graph shared by every parser instance
(`ASTParser.graph`, mapper.py:143). -/
structure SearchSt where
  sharedGraph : List FuncNode
  graph : List FuncNode
  crawled_imports : List String
  uncrawled : List String
  py_files : List String
deriving DecidableEq, Repr

/-- The accumulators as `Search.__init__` leaves them. -/
def initSearch : SearchSt :=
  { sharedGraph := [], graph := [], crawled_imports := [], uncrawled := [], py_files := [] }

/-- The tail of `append_graph` after the scan (mapper.py:346-351): on a
propagated exception, only the mutations already performed on the
shared objects survive (the class-level graph and, through aliasing,
`search.crawled_imports`); on normal return the remaining accumulators
are updated -- except `search.uncrawled`, which keeps its old value
because `set.union` returns a new set that line 347 discards. -/
def finishAppend (u : SourceUnit) (s : SearchSt) (p : NCState × Option String) :
    SearchSt × Option String :=
  match p with
  | (st1, some m) =>
    ({ s with sharedGraph := st1.graph, crawled_imports := st1.imports }, some m)
  | (st1, none) =>
    let s1 : SearchSt :=
      { s with sharedGraph := st1.graph, crawled_imports := st1.imports,
               uncrawled := s.uncrawled, py_files := s.py_files ++ [u.filename],
               graph := mergeDicts s.graph st1.graph }
    (s1, none)

/-- `append_graph` (mapper.py:342-351).  `open`/`ast.parse` may raise:
there is no handler, so the exception propagates with nothing recorded.
On a successful scan the creator's import set flows back into
`search.crawled_imports` only because the `imports=` constructor
argument aliases that very set; the explicit
`search.crawled_imports.union(...)` on line 346 returns a new set that
is discarded.  `search.uncrawled.union(...)` on line 347 likewise
discards its result, and since the creator's `_uncrawled` is a fresh
per-instance set, `search.uncrawled` never changes. -/
def append_graph (env : String → CrawlOut) (u : SourceUnit) (s : SearchSt) :
    SearchSt × Option String :=
  match u.parse with
  | Except.error m => (s, some m)
  | Except.ok tree =>
    let st0 : NCState :=
      { graph := s.sharedGraph, current_class := "", current_function := "",
        imports := s.crawled_imports, uncrawled := [] }
    finishAppend u s (ncStmts env u.shortName u.folders st0 tree)

/-- The requested-unit loop of `main` (mapper.py:435-451): units are
processed in order, and an uncaught exception from `append_graph`
aborts the whole run with the remaining units unprocessed. -/
def processAll (env : String → CrawlOut) :
    List SourceUnit → SearchSt → SearchSt × Option String
  | [], s => (s, none)
  | u :: rest, s =>
    match append_graph env u s with
    | (s1, some m) => (s1, some m)
    | (s1, none) => processAll env rest s1

theorem processAll_cons (env : String → CrawlOut) (u : SourceUnit)
    (rest : List SourceUnit) (s : SearchSt) :
    processAll env (u :: rest) s =
      match (append_graph env u s).2 with
      | some m => ((append_graph env u s).1, some m)
      | none => processAll env rest (append_graph env u s).1 := by
  simp only [processAll]
  cases h : append_graph env u s with
  | mk s1 e =>
    cases e with
    | some m => rfl
    | none => rfl

theorem scanThen_snd (p : NCState × Option String) (k : NCState → NCState × Option String)
    (hp : p.2 = none) (hk : ∀ st, (k st).2 = none) : (scanThen p k).2 = none := by
  obtain ⟨st1, e⟩ := p
  cases e with
  | none => exact hk st1
  | some m => simp at hp

theorem restoreClass_snd (old : String) (p : NCState × Option String) :
    (restoreClass old p).2 = p.2 := by
  obtain ⟨st3, e⟩ := p
  cases e <;> rfl

theorem restoreFunc_snd (old : String) (p : NCState × Option String) :
    (restoreFunc old p).2 = p.2 := by
  obtain ⟨st3, e⟩ := p
  cases e <;> rfl

/-- When no import attempt ends in an uncaught exception, every
`crawl_import` chain ends without one: `ImportError` and
`AttributeError` are the only exceptions the crawler handles, and both
are caught. -/
theorem crawl_fatal_none (env : String → CrawlOut)
    (hsafe : ∀ nm mm, env nm ≠ CrawlOut.parseErr mm) (folders : List String)
    (refName : String) :
    ∀ (r fi : Nat), (crawl_import env folders refName r fi).fatal = none
  | r, fi => by
    rw [crawl_import.eq_def]
    simp only []
    cases henv : env (buildFolder folders fi ++ refName) with
    | ok file tree => rfl
    | attrErr => rfl
    | parseErr mm => exact absurd henv (hsafe _ mm)
    | importErr =>
      cases r with
      | zero => rfl
      | succ k => exact crawl_fatal_none env hsafe folders refName k (fi + 1)

theorem ncCrawlRef_safe (env : String → CrawlOut)
    (hsafe : ∀ nm mm, env nm ≠ CrawlOut.parseErr mm) (folders : List String)
    (refName : String) (st : NCState) :
    (ncCrawlRef env folders refName st).2 = none := by
  simp only [ncCrawlRef, crawlTop]
  rw [crawl_fatal_none env hsafe folders refName folders.length 0]
  cases (crawl_import env folders refName folders.length 0).imported with
  | some v =>
    cases (crawl_import env folders refName folders.length 0).uncrawledAdd with
    | some nm => rfl
    | none => rfl
  | none =>
    cases (crawl_import env folders refName folders.length 0).uncrawledAdd with
    | some nm => rfl
    | none => rfl

theorem ncImports_safe (env : String → CrawlOut)
    (hsafe : ∀ nm mm, env nm ≠ CrawlOut.parseErr mm) (folders : List String) :
    ∀ (names : List String) (st : NCState), (ncImports env folders names st).2 = none
  | [], _ => rfl
  | nm :: rest, st => by
    simp only [ncImports]
    exact scanThen_snd _ _ (ncCrawlRef_safe env hsafe folders nm st)
      (fun st1 => ncImports_safe env hsafe folders rest st1)

mutual
/-- With no uncaught import exception in the environment, the scan of
one statement raises nothing. -/
theorem ncStmt_safe (env : String → CrawlOut)
    (hsafe : ∀ nm mm, env nm ≠ CrawlOut.parseErr mm) (fn : String)
    (folders : List String) :
    ∀ (s : PyStmt) (st : NCState), (ncStmt env fn folders st s).2 = none
  | PyStmt.classDef nm body, st => by
    simp only [ncStmt]
    rw [restoreClass_snd]
    exact ncStmts_safe env hsafe fn folders body _
  | PyStmt.funcDef nm aid body, st => by
    simp only [ncStmt]
    rw [restoreFunc_snd]
    exact ncStmts_safe env hsafe fn folders body _
  | PyStmt.importStmt names, st => ncImports_safe env hsafe folders names st
  | PyStmt.callStmt _ _, _ => rfl

/-- With no uncaught import exception in the environment, the scan of a
statement list raises nothing. -/
theorem ncStmts_safe (env : String → CrawlOut)
    (hsafe : ∀ nm mm, env nm ≠ CrawlOut.parseErr mm) (fn : String)
    (folders : List String) :
    ∀ (l : List PyStmt) (st : NCState), (ncStmts env fn folders st l).2 = none
  | [], _ => rfl
  | s :: rest, st => by
    simp only [ncStmts]
    exact scanThen_snd _ _ (ncStmt_safe env hsafe fn folders s st)
      (fun st1 => ncStmts_safe env hsafe fn folders rest st1)
end

theorem finishAppend_snd (u : SourceUnit) (s : SearchSt) (p : NCState × Option String) :
    (finishAppend u s p).2 = p.2 := by
  obtain ⟨st1, e⟩ := p
  cases e <;> rfl

theorem crawl_attempts_le (env : String → CrawlOut) (folders : List String)
    (refName : String) :
    ∀ (r fi : Nat), (crawl_import env folders refName r fi).attempts.length ≤ r + 1
  | r, fi => by
    rw [crawl_import.eq_def]
    simp only []
    cases henv : env (buildFolder folders fi ++ refName) with
    | ok file tree => simp
    | attrErr => simp
    | parseErr m => simp
    | importErr =>
      cases r with
      | zero => simp
      | succ k =>
        have h := crawl_attempts_le env folders refName k (fi + 1)
        simp only [List.length_cons]
        omega

theorem crawl_allfail (env : String → CrawlOut)
    (h : ∀ nm, env nm = CrawlOut.importErr) (folders : List String) (refName : String) :
    ∀ (r fi : Nat),
      (crawl_import env folders refName r fi).uncrawledAdd = some refName
      ∧ (crawl_import env folders refName r fi).attempts.length = r + 1
  | r, fi => by
    rw [crawl_import.eq_def]
    simp only []
    rw [h]
    cases r with
    | zero => exact ⟨rfl, rfl⟩
    | succ k =>
      obtain ⟨h1, h2⟩ := crawl_allfail env h folders refName k (fi + 1)
      refine ⟨h1, ?_⟩
      simp only [List.length_cons]
      omega

/-- Counterexample for C9 as stated: a unit in directory `a/b/`
(`folders = ["a","b",""]` after the split, two real segments) with
an import `m` that resolves nowhere makes four resolution attempts: the
bare name twice (once for the trailing empty segment), then `b.m`,
then `a.b.m` -- more than one attempt per directory segment under any
counting of segments. -/
theorem c9_attempts_counterexample :
    (crawlTop (fun _ => CrawlOut.importErr) ["a", "b", ""] "m").attempts
      = ["m", "m", "b.m", "a.b.m"]
    ∧ List.length ["a", "b", ""] = 3
    ∧ ¬((crawlTop (fun _ => CrawlOut.importErr) ["a", "b", ""] "m").attempts.length
        ≤ List.length ["a", "b", ""]) := by
  refine ⟨rfl, rfl, ?_⟩
  intro h
  have h4 : (crawlTop (fun _ => CrawlOut.importErr) ["a", "b", ""] "m").attempts.length = 4 :=
    rfl
  have h3 : List.length ["a", "b", ""] = 3 := rfl
  rw [h4, h3] at h
  omega

/-- C9 as amended: import-following is bounded to depth one and always
terminates -- a unit scanned with the secondary flag performs no import
crawling at all, and for each import in a non-secondary unit the
prefix-retry search makes at most `len(folders) + 1` resolution
attempts (one initial attempt plus one retry per split directory
segment; the bare name is attempted twice because of the trailing
empty segment) before either succeeding or exhausting the retries and
recording the reference name as unresolved. -/
theorem c9_bounded_crawl (env : String → CrawlOut) (folders : List String)
    (refName fn : String) (names : List String) (st : NCState) :
    (crawlTop env folders refName).attempts.length ≤ folders.length + 1
    ∧ ((∀ nm, env nm = CrawlOut.importErr) →
        (crawlTop env folders refName).uncrawledAdd = some refName
        ∧ (crawlTop env folders refName).attempts.length = folders.length + 1)
    ∧ ncStmtSec fn st (PyStmt.importStmt names) = st :=
  ⟨crawl_attempts_le env folders refName folders.length 0,
   fun h => crawl_allfail env h folders refName folders.length 0,
   rfl⟩

/-- Witness for C9: the Scenario-E crawl, all prefixes unresolvable. -/
theorem c9_bounded_crawl_witness :
    (crawlTop (fun _ => CrawlOut.importErr) ["a", "b", ""] "m").attempts.length ≤ 4
    ∧ (crawlTop (fun _ => CrawlOut.importErr) ["a", "b", ""] "m").uncrawledAdd = some "m"
    ∧ ncStmtSec "v.py"
        { graph := [], current_class := "", current_function := "",
          imports := [], uncrawled := [] }
        (PyStmt.importStmt ["m"])
      = { graph := [], current_class := "", current_function := "",
          imports := [], uncrawled := [] } :=
  ⟨(c9_bounded_crawl (fun _ => CrawlOut.importErr) ["a", "b", ""] "m" "v.py" ["m"]
      { graph := [], current_class := "", current_function := "",
        imports := [], uncrawled := [] }).1,
   ((c9_bounded_crawl (fun _ => CrawlOut.importErr) ["a", "b", ""] "m" "v.py" ["m"]
      { graph := [], current_class := "", current_function := "",
        imports := [], uncrawled := [] }).2.1 (fun _ => rfl)).1,
   (c9_bounded_crawl (fun _ => CrawlOut.importErr) ["a", "b", ""] "m" "v.py" ["m"]
      { graph := [], current_class := "", current_function := "",
        imports := [], uncrawled := [] }).2.2⟩

/-- A requested unit whose source does not parse. -/
def c3BadUnit : SourceUnit :=
  { filename := "bad.py", shortName := "bad.py", folders := [""],
    parse := Except.error "invalid syntax" }

/-- A well-formed requested unit declaring the function `g`. -/
def c3GoodUnit : SourceUnit :=
  { filename := "good.py", shortName := "good.py", folders := [""],
    parse := Except.ok [PyStmt.funcDef "g" 2 []] }

/-- Counterexample for C3 as stated: a requested unit that cannot be
parsed is not skipped -- `append_graph` has no exception handler, so
with the malformed `bad.py` followed by the well-formed `good.py` the
run aborts on the parse error and `good.py` is never processed: its
declaration `g` is absent from the final graph. -/
theorem c3_abort_counterexample :
    processAll (fun _ => CrawlOut.importErr) [c3BadUnit, c3GoodUnit] initSearch
      = (initSearch, some "invalid syntax")
    ∧ (⟨"good.py", "", "g"⟩ : NodeId) ∉ ids
        (processAll (fun _ => CrawlOut.importErr) [c3BadUnit, c3GoodUnit] initSearch).1.graph := by
  have h1 : processAll (fun _ => CrawlOut.importErr) [c3BadUnit, c3GoodUnit] initSearch
      = (initSearch, some "invalid syntax") := rfl
  refine ⟨h1, ?_⟩
  rw [h1]
  exact List.not_mem_nil _

/-- C3 as amended: failures to RESOLVE an import (`ImportError`,
`AttributeError`) are caught and non-fatal -- with such an environment
a well-formed unit always scans without error -- but a requested unit
that cannot be read or parsed is not skipped: the exception propagates
uncaught and aborts the run, leaving the results of the units before it
and skipping every unit after it. -/
theorem c3_parse_is_fatal (env : String → CrawlOut) (pre : List SourceUnit)
    (u : SourceUnit) (rest : List SourceUnit) (s : SearchSt) (m : String)
    (hu : u.parse = Except.error m)
    (hpre : (processAll env pre s).2 = none) :
    processAll env (pre ++ u :: rest) s = ((processAll env pre s).1, some m)
    ∧ ((∀ nm mm, env nm ≠ CrawlOut.parseErr mm) →
        ∀ (u2 : SourceUnit) (tree : List PyStmt) (s2 : SearchSt),
          u2.parse = Except.ok tree → (append_graph env u2 s2).2 = none) := by
  constructor
  · induction pre generalizing s with
    | nil =>
      have ha : append_graph env u s = (s, some m) := by
        simp only [append_graph]
        rw [hu]
      show processAll env (u :: rest) s = ((s, none).1, some m)
      simp only [processAll]
      rw [ha]
    | cons v pre ih =>
      rw [processAll_cons] at hpre
      rw [List.cons_append, processAll_cons, processAll_cons]
      cases he : (append_graph env v s).2 with
      | some mm =>
        rw [he] at hpre
        simp at hpre
      | none =>
        rw [he] at hpre
        exact ih (append_graph env v s).1 hpre
  · intro hsafe u2 tree s2 hu2
    simp only [append_graph]
    rw [hu2]
    show (finishAppend u2 s2 (ncStmts env u2.shortName u2.folders
      ⟨s2.sharedGraph, "", "", s2.crawled_imports, []⟩ tree)).2 = none
    rw [finishAppend_snd]
    exact ncStmts_safe env hsafe u2.shortName u2.folders tree _

/-- Witness for C3: the two-unit scenario of the counterexample run
through the amended theorem, plus a non-fatal unresolvable import. -/
theorem c3_parse_is_fatal_witness :
    processAll (fun _ => CrawlOut.importErr) [c3BadUnit, c3GoodUnit] initSearch
      = ((processAll (fun _ => CrawlOut.importErr) [] initSearch).1, some "invalid syntax")
    ∧ (append_graph (fun _ => CrawlOut.importErr)
        { filename := "imp.py", shortName := "imp.py", folders := [""],
          parse := Except.ok [PyStmt.importStmt ["missing"]] } initSearch).2 = none :=
  ⟨(c3_parse_is_fatal (fun _ => CrawlOut.importErr) [] c3BadUnit [c3GoodUnit]
      initSearch "invalid syntax" rfl rfl).1,
   (c3_parse_is_fatal (fun _ => CrawlOut.importErr) [] c3BadUnit [c3GoodUnit]
      initSearch "invalid syntax" rfl rfl).2 (fun _ _ h => CrawlOut.noConfusion h)
     { filename := "imp.py", shortName := "imp.py", folders := [""],
       parse := Except.ok [PyStmt.importStmt ["missing"]] }
     [PyStmt.importStmt ["missing"]] initSearch rfl⟩

/-- The failing input for C4: a requested unit importing a module
`missing` that resolves under no prefix, plus one declaration `f`. -/
def c4Unit : SourceUnit :=
  { filename := "dir/u.py", shortName := "u.py", folders := ["dir", ""],
    parse := Except.ok [PyStmt.importStmt ["missing"], PyStmt.funcDef "f" 1 []] }

/-- C4 evaluated at the failing input: the scan of the importing unit
completes without error and its own declaration `f` appears in the
graph, and the creator's per-instance `_uncrawled` set does record
`missing` -- but `search.uncrawled`, the set the reporting layer reads
(mapper.py:378-380), stays empty, because
`search.uncrawled.union(creator.get_uncrawled())` (mapper.py:347)
builds a new set and discards it instead of updating in place.  The
claimed membership in the exposed unresolvedImports set fails on the
code although the rest of the claim holds. -/
theorem c4_uncrawled_lost :
    (append_graph (fun _ => CrawlOut.importErr) c4Unit initSearch).2 = none
    ∧ ids (append_graph (fun _ => CrawlOut.importErr) c4Unit initSearch).1.graph
        = [⟨"u.py", "", "f"⟩]
    ∧ (ncStmts (fun _ => CrawlOut.importErr) "u.py" ["dir", ""]
        { graph := [], current_class := "", current_function := "",
          imports := [], uncrawled := [] }
        [PyStmt.importStmt ["missing"], PyStmt.funcDef "f" 1 []]).1.uncrawled
        = ["missing"]
    ∧ (append_graph (fun _ => CrawlOut.importErr) c4Unit initSearch).1.uncrawled = [] :=
  ⟨rfl, rfl, rfl, rfl⟩
